import Mathlib

set_option maxRecDepth 100000

/-!
Verification of the template engine of the deno-cross repository
(`Engine`: compile / render / block / declare / reduce / escape / unescape).

JavaScript strings are modelled as `List Char`; each regex-based global
`String.replace` of the source is modelled by a left-to-right scanner that
mirrors the regex's lazy/greedy semantics on the concrete patterns the
engine uses.  The generated renderer source is modelled by parsing the
emitted code string with a small parser for the JavaScript fragment the
compiler emits and running it with an environment-passing interpreter.
Scanners, parser and interpreter take a fuel argument that every caller
instantiates above the input length, so fuel exhaustion is unreachable.
-/

namespace Cross

/-- We model JavaScript strings as lists of characters. -/
abbrev Chars := List Char

/-- The JavaScript `\s` class (the part that can occur in template text). -/
def wsC (c : Char) : Bool := c == ' ' || c == '\t' || c == '\n' || c == '\r' || c == '\x0b' || c == '\x0c'

/-- `pfx p s` tests whether `p` is a prefix of `s`. -/
def pfx : Chars → Chars → Bool
  | [], _ => true
  | _ :: _, [] => false
  | a :: as, b :: bs => a == b && pfx as bs

/-- First step of `Engine.escape`: the replace `/\\/g → "\\\\"` (double every backslash). -/
def escB : Chars → Chars
  | [] => []
  | c :: r => if c == '\\' then '\\' :: '\\' :: escB r else c :: escB r

/-- Second step of `Engine.escape`: the replace `/\'/g → "\\'"` (backslash before every quote). -/
def escQ : Chars → Chars
  | [] => []
  | c :: r => if c == '\'' then '\\' :: '\'' :: escQ r else c :: escQ r

/-- `Engine.escape`: double backslashes, then escape single quotes. -/
def escape (t : Chars) : Chars := escQ (escB t)

/-- `Engine.unescape`: the replace `/\\'/g → "'"` (left-to-right, non-overlapping). -/
def unescape : Chars → Chars
  | [] => []
  | [c] => [c]
  | a :: b :: r => if a == '\\' && b == '\'' then '\'' :: unescape r else a :: unescape (b :: r)

/-- JavaScript `String.trim`, left part. -/
def trimL (s : Chars) : Chars := s.dropWhile wsC

/-- JavaScript `String.trim`, right part. -/
def trimR (s : Chars) : Chars := (trimL s.reverse).reverse

/-- JavaScript `String.trim`. -/
def trimWs (s : Chars) : Chars := trimR (trimL s)

/-- Remainder after the first occurrence of `stop` in `s` (`none` when `stop` never
occurs): the lazy idiom `[\s\S]*?stop`. -/
def findStop (stop : Chars) : Chars → Option Chars
  | [] => if pfx stop [] then some [] else none
  | c :: r => if pfx stop (c :: r) then some (List.drop stop.length (c :: r)) else findStop stop r

/-- Global replace of the lazy-delimited pattern `opn[\s\S]*?stop` with the empty string
(HTML comments `<!-- -->` and block code comments). -/
def removeDelim (opn stop : Chars) : Nat → Chars → Chars
  | 0, s => s
  | _, [] => []
  | n+1, c :: r =>
    if pfx opn (c :: r) then
      match findStop stop (List.drop opn.length (c :: r)) with
      | some rest => removeDelim opn stop n rest
      | none => c :: removeDelim opn stop n r
    else c :: removeDelim opn stop n r

def slash2 : Chars := ['/', '/']

/-- Global replace of `/\n\s*\/\/.*/` with the empty string: a line break, the following
whitespace run, a `//` comment and the rest of that line. -/
def rmLineCom : Nat → Chars → Chars
  | 0, s => s
  | _, [] => []
  | n+1, c :: r =>
    if c == '\n' then
      let rest := r.dropWhile wsC
      if pfx slash2 rest then
        rmLineCom n (rest.dropWhile (fun c2 => !(c2 == '\n')))
      else c :: rmLineCom n r
    else c :: rmLineCom n r

/-- Tab or space (the class `[\t ]`). -/
def tabSp (c : Char) : Bool := c == '\t' || c == ' '

/-- Global replace of `/(\r|\n)[\t ]+/` with the empty string (break plus indentation). -/
def rmBreakIndent : Nat → Chars → Chars
  | 0, s => s
  | _, [] => []
  | n+1, c :: r =>
    if (c == '\r' || c == '\n') && (match r with | c2 :: _ => tabSp c2 | [] => false) then
      rmBreakIndent n (r.dropWhile tabSp)
    else c :: rmBreakIndent n r

/-- Global replace of `/[\t ]+(\r|\n)/` with the empty string (trailing blanks plus break). -/
def rmIndentBreak : Nat → Chars → Chars
  | 0, s => s
  | _, [] => []
  | n+1, c :: r =>
    if tabSp c then
      match (c :: r).dropWhile tabSp with
      | c2 :: r2 =>
        if c2 == '\r' || c2 == '\n' then rmIndentBreak n r2
        else c :: rmIndentBreak n r
      | [] => c :: rmIndentBreak n r
    else c :: rmIndentBreak n r

/-- Global replace of `/\r|\n|\t/` with the empty string. -/
def rmBreaks (s : Chars) : Chars := s.filter (fun c => !(c == '\r' || c == '\n' || c == '\t'))

def htmlOpen : Chars := ('<' :: '!' :: '-' :: '-' :: [])
def htmlClose : Chars := ('-' :: '-' :: '>' :: [])
def comOpen : Chars := ('/' :: '*' :: [])
def comClose : Chars := ('*' :: '/' :: [])

/-- `Engine.reduce`: trim, then strip HTML comments, block comments, inline `//` comments,
breaks with their indentation, trailing blanks before breaks, and remaining breaks/tabs. -/
def reduce (t : Chars) : Chars :=
  let a := trimWs t
  let b := removeDelim htmlOpen htmlClose (a.length + 1) a
  let c := removeDelim comOpen comClose (b.length + 1) b
  let d := rmLineCom (c.length + 1) c
  let e := rmBreakIndent (d.length + 1) d
  let f := rmIndentBreak (e.length + 1) e
  rmBreaks f

/-! ## Block resolution (`Engine.block`) -/

def bb2 : Chars := ('\x7d' :: '\x7d' :: [])
def obraceLt : Chars := ('\x7b' :: '\x7b' :: '<' :: [])
def obraceGt : Chars := ('\x7b' :: '\x7b' :: '>' :: [])

/-- The regex tail `\s*\}\}`: maximal whitespace run then `}}`; returns the remainder. -/
def wsBB (s : Chars) : Option Chars :=
  let r := s.dropWhile wsC
  if pfx bb2 r then some (List.drop 2 r) else none

/-- The lazy capture `(\S+?)\s*\}\}`: shortest nonempty run of non-whitespace characters
followed by `\s*}}`; returns the captured name and the remainder after `}}`. -/
def takeName : Nat → Chars → Option (Chars × Chars)
  | 0, _ => none
  | _, [] => none
  | n+1, c :: r =>
    if wsC c then none
    else
      match wsBB r with
      | some rest => some ([c], rest)
      | none =>
        match takeName n r with
        | some (nm, rest) => some (c :: nm, rest)
        | none => none

/-- The block-define close tag `\{\{<\s*\}\}` at the head of `s`; returns the remainder. -/
def closeDef (s : Chars) : Option Chars :=
  if pfx obraceLt s then wsBB (List.drop 3 s) else none

/-- The lazy body capture `([\s\S]*?)` up to the first block-define close tag. -/
def takeBody : Nat → Chars → Option (Chars × Chars)
  | 0, _ => none
  | n+1, s =>
    match closeDef s with
    | some rest => some ([], rest)
    | none =>
      match s with
      | [] => none
      | c :: r =>
        match takeBody n r with
        | some (b, rest) => some (c :: b, rest)
        | none => none

/-- One attempted match of the block-define regex
`\{\{<\s*(\S+?)\s*\}\}([\s\S]*?)\{\{<\s*\}\}` at the head of `s`. -/
def matchDefine (s : Chars) : Option (Chars × Chars × Chars) :=
  if pfx obraceLt s then
    let s1 := (List.drop 3 s).dropWhile wsC
    match takeName (s1.length + 1) s1 with
    | some (nm, afterOpen) =>
      match takeBody (afterOpen.length + 1) afterOpen with
      | some (body, rest) => some (nm, body, rest)
      | none => none
    | none => none
  else none

/-- The own properties of the block record (`Record<string, string>` is a plain `{}`
object), most recent first. -/
abbrev Blocks := List (Chars × Chars)

/-- Own-property lookup on the block record. -/
def lookupB : Blocks → Chars → Option Chars
  | [], _ => none
  | (k, v) :: r, n => if k == n then some v else lookupB r n

/-- The name of the inherited `__proto__` accessor of `Object.prototype`. -/
def protoAccessor : Chars := ("__proto__").data

/-- The own-property names of `Object.prototype`, inherited by the plain `{}` block
record on property reads that find no own property. -/
def protoNames : List Chars :=
  [(("constructor").data), (("hasOwnProperty").data), (("isPrototypeOf").data),
   (("propertyIsEnumerable").data), (("toLocaleString").data), (("toString").data),
   (("valueOf").data), (("__defineGetter__").data), (("__defineSetter__").data),
   (("__lookupGetter__").data), (("__lookupSetter__").data), protoAccessor]

/-- The assignment `blocks[name] = block` on the plain `{}` record: for `__proto__`
the inherited accessor's setter silently ignores a string value (no own property is
created); every other name gets an own property. -/
def setB (bs : Blocks) (nm body : Chars) : Blocks :=
  if nm == protoAccessor then bs else (nm, body) :: bs

/-- Modelled from the host runtime: the string `String.replace` coerces an inherited
`Object.prototype` member to — `[object Object]` for the `__proto__` accessor's value
(the prototype object itself) and V8's NativeFunction source form for the
function-valued members (the inherited `constructor` is the `Object` function). -/
def protoString (nm : Chars) : Chars :=
  if nm == protoAccessor then ("[object Object]").data
  else if nm == (("constructor").data) then
    ("function Object() \x7b [native code] \x7d").data
  else (("function ").data) ++ nm ++ (("() \x7b [native code] \x7d").data)

/-- The read `blocks[name] || ""` on the plain `{}` record, as `String.replace`
coerces it: an own property yields its body (an empty body and `""` coincide); a name
with no own property yields the inherited truthy `Object.prototype` member, coerced to
a string, or the empty string when nothing is inherited. -/
def blockSub (bs : Blocks) (nm : Chars) : Chars :=
  match lookupB bs nm with
  | some v => v
  | none => if protoNames.contains nm then protoString nm else []

/-- Pass 1 of `Engine.block`: globally replace block-define tags with the empty string,
recording each definition via `blocks[name] = block` (a later definition for the same
name shadows an earlier one; a `__proto__` definition is silently dropped). -/
def defineGo : Nat → Blocks → Chars → Chars × Blocks
  | 0, bs, s => (s, bs)
  | _, bs, [] => ([], bs)
  | n+1, bs, c :: r =>
    match matchDefine (c :: r) with
    | some (nm, body, rest) => defineGo n (setB bs nm body) rest
    | none =>
      let (t, bs2) := defineGo n bs r
      (c :: t, bs2)

/-- One attempted match of the block-holder regex `\{\{>\s*(\S+?)\s*\}\}`. -/
def matchHolder (s : Chars) : Option (Chars × Chars) :=
  if pfx obraceGt s then
    let s1 := (List.drop 3 s).dropWhile wsC
    takeName (s1.length + 1) s1
  else none

/-- Pass 2 of `Engine.block`: replace each block-holder tag by `blocks[name] || ""`
as the replacer returns it (see `blockSub`). -/
def holderGo : Nat → Blocks → Chars → Chars
  | 0, _, s => s
  | _, _, [] => []
  | n+1, bs, c :: r =>
    match matchHolder (c :: r) with
    | some (nm, rest) => blockSub bs nm ++ holderGo n bs rest
    | none => c :: holderGo n bs r

/-- `Engine.block`: collect all definitions in a first whole-text pass, then substitute
holders in a second pass. -/
def block (t : Chars) : Chars :=
  holderGo ((defineGo (t.length + 1) [] t).1.length + 1)
    (defineGo (t.length + 1) [] t).2 (defineGo (t.length + 1) [] t).1

/-! ## The tag compiler (the four `replace` passes of `Engine.compile`) -/

def obraceEq : Chars := ('\x7b' :: '\x7b' :: '=' :: [])
def obraceQm : Chars := ('\x7b' :: '\x7b' :: '?' :: [])
def obraceTl : Chars := ('\x7b' :: '\x7b' :: '~' :: [])
def obrace2 : Chars := ('\x7b' :: '\x7b' :: [])

/-- `Engine.output`: `"';" + code + "out+='"`. -/
def output (code : Chars) : Chars := ('\'' :: ';' :: []) ++ code ++ (("out+='").data)

/-- The lazy capture `([\s\S]*?)` up to the first `}}`; returns the (possibly empty)
captured span and the remainder after `}}`. -/
def upToBB : Nat → Chars → Option (Chars × Chars)
  | 0, _ => none
  | n+1, s =>
    if pfx bb2 s then some ([], List.drop 2 s)
    else
      match s with
      | [] => none
      | c :: r =>
        match upToBB n r with
        | some (a, b) => some (c :: a, b)
        | none => none

/-- The lazy capture `([\s\S]+?)` up to the first `}}` (at least one character). -/
def findCode (s : Chars) : Option (Chars × Chars) :=
  match s with
  | [] => none
  | c :: r =>
    match upToBB (r.length + 1) r with
    | some (a, b) => some (c :: a, b)
    | none => none

/-- The INTERPOLATE pass: global replace of `\{\{=([\s\S]+?)\}\}` with
`"'+(" + code + ")+'"`, pushing each unescaped code fragment. -/
def interpGo : Nat → Chars → Chars × List Chars
  | 0, s => (s, [])
  | _, [] => ([], [])
  | n+1, c :: r =>
    if pfx obraceEq (c :: r) then
      match findCode (List.drop 3 (c :: r)) with
      | some (code, rest) =>
        let u := unescape code
        let p := interpGo n rest
        ((("'+(").data) ++ u ++ ((")+'").data) ++ p.1, u :: p.2)
      | none =>
        let p := interpGo n r
        (c :: p.1, p.2)
    else
      let p := interpGo n r
      (c :: p.1, p.2)

/-- The CONDITIONAL pass: global replace of `\{\{\?(\?)?\s*([\s\S]*?)\s*\}\}`.
An empty condition yields `}` / `}else{`; a nonempty condition yields
`if(code){` / `}else if(code){`, pushing the unescaped condition. -/
def condGo : Nat → Chars → Chars × List Chars
  | 0, s => (s, [])
  | _, [] => ([], [])
  | n+1, c :: r =>
    if pfx obraceQm (c :: r) then
      let elseCase := pfx ['?'] (List.drop 3 (c :: r))
      let sig := if elseCase then 4 else 3
      match upToBB ((c :: r).length + 1) (List.drop sig (c :: r)) with
      | some (span, rest) =>
        let code := unescape (trimWs span)
        let rep :=
          if (trimWs span).isEmpty then
            output (if elseCase then ("\x7delse\x7b").data else ['\x7d'])
          else
            output (if elseCase then (("\x7delse if(").data) ++ code ++ ((")\x7b").data) else (("if(").data) ++ code ++ ((")\x7b").data))
        let p := condGo n rest
        if (trimWs span).isEmpty then (rep ++ p.1, p.2)
        else (rep ++ p.1, code :: p.2)
      | none =>
        let p := condGo n r
        (c :: p.1, p.2)
    else
      let p := condGo n r
      (c :: p.1, p.2)

/-- A `[\w$]` character. -/
def wordC (c : Char) : Bool := c.isAlphanum || c == '_' || c == '$'

/-- The tail `\s*\:\s*([\w$]+)\s*(?:\:\s*([\w$]+))?\s*\}\}` of the iterative regex,
applied after a candidate array expression: returns (value name, optional index name,
remainder after `}}`). The optional group is tried first (greedy), as the regex does. -/
def iterTail (s : Chars) : Option (Chars × Option Chars × Chars) :=
  let s1 := s.dropWhile wsC
  match s1 with
  | ':' :: r1 =>
    let s2 := r1.dropWhile wsC
    let val := s2.takeWhile wordC
    if val.isEmpty then none
    else
      let s3 := s2.dropWhile wordC
      let s4 := s3.dropWhile wsC
      match s4 with
      | ':' :: r4 =>
        let s5 := r4.dropWhile wsC
        let idx := s5.takeWhile wordC
        if idx.isEmpty then none
        else
          let s6 := (s5.dropWhile wordC).dropWhile wsC
          if pfx bb2 s6 then some (val, some idx, List.drop 2 s6) else none
      | _ =>
        if pfx bb2 s4 then some (val, none, List.drop 2 s4) else none
  | _ => none

/-- The lazy capture `([\s\S]+?)` of the array expression: the shortest nonempty span
whose tail matches `iterTail`. -/
def tryArr : Nat → Chars → Option (Chars × Chars × Option Chars × Chars)
  | 0, _ => none
  | _, [] => none
  | n+1, c :: r =>
    match iterTail r with
    | some (v, i, rest) => some ([c], v, i, rest)
    | none =>
      match tryArr n r with
      | some (a, v, i, rest) => some (c :: a, v, i, rest)
      | none => none

/-- Replacement emitted for a full iterative tag:
`if(arr){` `[let idx=-1;]` `for (let val of arr){` `[idx++;]`. -/
def iterOpen (arr val : Chars) (idx : Option Chars) : Chars :=
  let defI := match idx with | some i => (("let ").data) ++ i ++ (("=-1;").data) | none => []
  let incI := match idx with | some i => i ++ (("++;").data) | none => []
  output ((("if(").data) ++ arr ++ ((")\x7b").data) ++ defI ++ (("for (let ").data) ++ val
    ++ ((" of ").data) ++ arr ++ ((")\x7b").data) ++ incI)

/-- Backtracking of the shared greedy `\s*` of the iterative regex: the longest
whitespace prefix is tried first; on failure the whitespace is handed back, one
character at a time, to the lazy array capture.  `wrev` is the reversed unused
whitespace run, `t` the text the array capture starts at. -/
def iterBack : Chars → Chars → Option (Chars × Chars × Option Chars × Chars)
  | wrev, t =>
    match tryArr (t.length + 1) t with
    | some res => some res
    | none =>
      match wrev with
      | [] => none
      | c :: wr => iterBack wr (c :: t)

/-- The ITERATIVE pass: global replace of
`\{\{~\s*(?:\}\}|([\s\S]+?)\s*\:\s*([\w$]+)\s*(?:\:\s*([\w$]+))?\s*\}\})`.
The closer form emits `}}`; the full form emits a null-guarded loop and pushes the raw
array expression. -/
def iterGo : Nat → Chars → Chars × List Chars
  | 0, s => (s, [])
  | _, [] => ([], [])
  | n+1, c :: r =>
    if pfx obraceTl (c :: r) then
      let s0 := List.drop 3 (c :: r)
      let t0 := s0.dropWhile wsC
      if pfx bb2 t0 then
        let p := iterGo n (List.drop 2 t0)
        (output bb2 ++ p.1, p.2)
      else
        match iterBack (s0.takeWhile wsC).reverse t0 with
        | some (arr, val, idx, rest) =>
          let p := iterGo n rest
          (iterOpen arr val idx ++ p.1, arr :: p.2)
        | none =>
          let p := iterGo n r
          (c :: p.1, p.2)
    else
      let p := iterGo n r
      (c :: p.1, p.2)

/-- The EVALUATE pass: global replace of `\{\{([\s\S]+?(\}?)+)\}\}`: the capture extends
through the maximal run of closing braces minus the final two; emits `output(code + ";")`
and pushes the unescaped code. -/
def evalGo : Nat → Chars → Chars × List Chars
  | 0, s => (s, [])
  | _, [] => ([], [])
  | n+1, c :: r =>
    if pfx obrace2 (c :: r) then
      match findCode (List.drop 2 (c :: r)) with
      | some (code0, rest0) =>
        let ext := rest0.takeWhile (fun c2 => c2 == '\x7d')
        let rest := rest0.dropWhile (fun c2 => c2 == '\x7d')
        let code := unescape (code0 ++ ext)
        let p := evalGo n rest
        (output (code ++ [';']) ++ p.1, code :: p.2)
      | none =>
        let p := evalGo n r
        (c :: p.1, p.2)
    else
      let p := evalGo n r
      (c :: p.1, p.2)

/-! ## Free-variable inference (`Engine.declare`) -/

/-- A `\w` character (regex word character: no `$`). -/
def isW (c : Char) : Bool := c.isAlphanum || c == '_'

/-- Double-quoted string literal alternative `"(?:[^"\\]|\\[\w\W])*"` (after the opening
quote): returns the remainder after the closing quote. -/
def skipStr (q : Char) : Nat → Chars → Option Chars
  | 0, _ => none
  | _, [] => none
  | n+1, c :: r =>
    if c == q then some r
    else if c == '\\' then
      match r with
      | [] => none
      | _ :: r2 => skipStr q n r2
    else skipStr q n r

/-- A `[$\w\.]` character (member-chain tail). -/
def chainC (c : Char) : Bool := isW c || c == '$' || c == '.'

/-- One attempted match of `Variable.REMOVE` at the head of `s` (alternatives in the
regex's order): block comment, `//…\n`, `//…$`, double-quoted string, single-quoted
string, `\s*\.\s*[$\w\.]+`.  Returns the remainder after the match. -/
def matchRemove (s : Chars) : Option Chars :=
  if pfx comOpen s then
    match findStop comClose (List.drop 2 s) with
    | some rest => some rest
    | none => remAlt6 s
  else if pfx slash2 s then
    let r := List.drop 2 s
    let lineRest := r.dropWhile (fun c => !(c == '\n'))
    match lineRest with
    | '\n' :: rest => some rest
    | _ => some []
  else
    match s with
    | '"' :: r =>
      match skipStr '"' (r.length + 1) r with
      | some rest => some rest
      | none => remAlt6 s
    | '\'' :: r =>
      match skipStr '\'' (r.length + 1) r with
      | some rest => some rest
      | none => remAlt6 s
    | _ => remAlt6 s
where
  /-- Alternative 6: `\s*\.\s*[$\w\.]+`. -/
  remAlt6 (s : Chars) : Option Chars :=
    let s1 := s.dropWhile wsC
    match s1 with
    | '.' :: r1 =>
      let s2 := r1.dropWhile wsC
      let chain := s2.takeWhile chainC
      if chain.isEmpty then none else some (s2.dropWhile chainC)
    | _ => none

/-- Global replace of `Variable.REMOVE` with the empty string. -/
def removeGo : Nat → Chars → Chars
  | 0, s => s
  | _, [] => []
  | n+1, c :: r =>
    match matchRemove (c :: r) with
    | some rest => removeGo n rest
    | none => c :: removeGo n r

/-- A `[\w$]` run separator: global replace of `Variable.SPLIT` (`/[^\w$]+/`) with `","`. -/
def splitGo : Nat → Chars → Chars
  | 0, s => s
  | _, [] => []
  | n+1, c :: r =>
    if wordC c then c :: splitGo n r
    else ',' :: splitGo n ((c :: r).dropWhile (fun c2 => !(wordC c2)))

/-- The `Variable.KEYWORDS` alternation, in the order it is written in the source. -/
def keywords : List Chars :=
  [("abstract").data, ("arguments").data, ("async").data, ("await").data, ("boolean").data,
   ("break").data, ("byte").data, ("case").data, ("catch").data, ("char").data,
   ("class").data, ("const").data, ("continue").data, ("debugger").data, ("default").data,
   ("delete").data, ("do").data, ("double").data, ("else").data, ("enum").data,
   ("eval").data, ("export").data, ("extends").data, ("false").data, ("final").data,
   ("finally").data, ("float").data, ("for").data, ("function").data, ("goto").data,
   ("if").data, ("implements").data, ("import").data, ("in").data, ("instanceof").data,
   ("int").data, ("interface").data, ("let").data, ("long").data, ("native").data,
   ("new").data, ("null").data, ("of").data, ("package").data, ("private").data,
   ("protected").data, ("public").data, ("return").data, ("short").data, ("static").data,
   ("super").data, ("switch").data, ("synchronized").data, ("then").data, ("this").data,
   ("throw").data, ("throws").data, ("transient").data, ("true").data, ("try").data,
   ("typeof").data, ("undefined").data, ("var").data, ("void").data, ("volatile").data,
   ("while").data, ("with").data, ("yield").data, ("parseInt").data, ("parseFloat").data,
   ("decodeURI").data, ("decodeURIComponent").data, ("encodeURI").data,
   ("encodeURIComponent").data, ("isFinite").data, ("isNaN").data, ("Array").data,
   ("ArrayBuffer").data, ("Object").data, ("Function").data, ("Math").data, ("Date").data,
   ("Boolean").data, ("String").data, ("RegExp").data, ("Map").data, ("Set").data,
   ("JSON").data, ("Promise").data, ("Reflect").data, ("Number").data, ("BigInt").data,
   ("Infinity").data, ("Error").data, ("NaN").data]

/-- Try the keyword alternatives in order at the head of `s`, requiring a word boundary
after the keyword; returns the remainder after the first that fits. -/
def tryKw : List Chars → Chars → Option Chars
  | [], _ => none
  | k :: ks, s =>
    if pfx k s then
      let rest := List.drop k.length s
      match rest with
      | [] => some rest
      | c :: _ => if isW c then tryKw ks s else some rest
    else tryKw ks s

/-- Global replace of `Variable.KEYWORDS` (`\b(...)\b`) with the empty string.
`prevW` records whether the previous character of the original text was a `\w`
character, which decides the leading word boundary. -/
def kwGo : Nat → Bool → Chars → Chars
  | 0, _, s => s
  | _, _, [] => []
  | n+1, prevW, c :: r =>
    if !prevW then
      match tryKw keywords (c :: r) with
      | some rest => kwGo n true rest
      | none => c :: kwGo n (isW c) r
    else c :: kwGo n (isW c) r

/-- Matches `,\d[^,]*` at the head; the `^\d[^,]*` start-anchored alternative is handled
by `numRemove`. -/
def numGo : Nat → Chars → Chars
  | 0, s => s
  | _, [] => []
  | n+1, c :: r =>
    if c == ',' then
      match r with
      | c2 :: r2 =>
        if c2.isDigit then numGo n (r2.dropWhile (fun c3 => !(c3 == ',')))
        else c :: numGo n r
      | [] => [c]
    else c :: numGo n r

/-- Global replace of `Variable.NUMBER` (`/^\d[^,]*|,\d[^,]*/`) with the empty string. -/
def numRemove (s : Chars) : Chars :=
  match s with
  | c :: r =>
    if c.isDigit then numGo (s.length + 1) (r.dropWhile (fun c2 => !(c2 == ',')))
    else numGo (s.length + 1) s
  | [] => []

/-- Global replace of `Variable.BOUNDARY` (`/^,+|,+$/`) with the empty string. -/
def boundary (s : Chars) : Chars :=
  let a := s.dropWhile (fun c => c == ',')
  ((a.reverse.dropWhile (fun c => c == ','))).reverse

/-- `split(Variable.SPLIT2)` (`/^$|,+/`): the empty string splits to `[]`; otherwise
split on comma runs. -/
def splitCommas : Nat → Chars → List Chars
  | 0, _ => []
  | _, [] => [[]]
  | n+1, s =>
    let tok := s.takeWhile (fun c => !(c == ','))
    let rest := s.dropWhile (fun c => !(c == ','))
    match rest with
    | [] => [tok]
    | _ :: _ => tok :: splitCommas n (rest.dropWhile (fun c => c == ','))

def split2 (s : Chars) : List Chars :=
  match s with
  | [] => []
  | _ => splitCommas (s.length + 1) s

/-- The dedup loop of `Engine.declare` (insertion order, first occurrence wins). -/
def dedup : List Chars → List Chars → List Chars
  | _, [] => []
  | seen, n :: r =>
    if seen.contains n then dedup seen r
    else n :: dedup (n :: seen) r

/-- `codes.join(",")`. -/
def joinComma : List Chars → Chars
  | [] => []
  | [c] => c
  | c :: r => c ++ [','] ++ joinComma r

/-- The deduplicated free-variable list inferred by `Engine.declare`. -/
def varNames (codes : List Chars) : List Chars :=
  let j := joinComma codes
  let a := removeGo (j.length + 1) j
  let b := splitGo (a.length + 1) a
  let c := kwGo (b.length + 1) false b
  let d := numRemove c
  let e := boundary d
  dedup [] (split2 e)

/-- `Engine.declare`: the declaration prologue `let v=data.v,…;` (empty when no
variable survives). -/
def declare (codes : List Chars) : Chars :=
  let vs := varNames codes
  match vs with
  | [] => []
  | _ => (("let ").data) ++ joinComma (vs.map (fun v => v ++ (("=data.").data) ++ v)) ++ [';']

/-! ## `Engine.compile`: the rewritten text, fragment list and generated source -/

/-- The rewritten template text and the Code Fragment List accumulated by the four
`replace` passes of `Engine.compile`, applied to `escape (reduce (block tmpl))`. -/
def compileParts (tmpl : Chars) : Chars × List Chars :=
  let t2 := escape (reduce (block tmpl))
  let p1 := interpGo (t2.length + 1) t2
  let p2 := condGo (p1.1.length + 1) p1.1
  let p3 := iterGo (p2.1.length + 1) p2.1
  let p4 := evalGo (p3.1.length + 1) p3.1
  (p4.1, p1.2 ++ p2.2 ++ p3.2 ++ p4.2)

/-- The Code Fragment List of `Engine.compile`. -/
def compileCodes (tmpl : Chars) : List Chars := (compileParts tmpl).2

/-- The generated function body:
`declare(codes) + "let out='" + tmpl + "';return out;"`. -/
def genSource (tmpl : Chars) : Chars :=
  let p := compileParts tmpl
  declare p.2 ++ (("let out='").data) ++ p.1 ++ (("';return out;").data)

/-! ## The host-language fragment the compiler emits

`new Function("data", source)` instantiates the generated source as a JavaScript
function.  We model the host runtime for exactly the language fragment the engine can
emit (string/number literals, identifiers, member access, `==`, `+`, `*`, assignment,
`+=`, postfix `++`, `let`, `if`/`else`, `for…of`, `return`), with JavaScript's
dynamic values restricted to the shapes a render can see. -/

/-- JavaScript values (the shapes reachable from a render's data record). -/
inductive Value where
  | undef : Value
  | vnull : Value
  | nan : Value
  | bool (b : Bool) : Value
  | num (n : Int) : Value
  | str (s : Chars) : Value
  | arr (xs : List Value) : Value
  | obj (fs : List (Chars × Value)) : Value

/-- Expressions of the emitted fragment. -/
inductive Expr where
  | lit (v : Value)
  | ident (name : Chars)
  | member (e : Expr) (field : Chars)
  | eqOp (a b : Expr)
  | addOp (a b : Expr)
  | mulOp (a b : Expr)
  | assign (name : Chars) (e : Expr)
  | addAssign (name : Chars) (e : Expr)
  | postInc (name : Chars)

/-- Statements of the emitted fragment.  `ifStmt` carries the `if`/`else if` chain. -/
inductive Stmt where
  | letDecl (binds : List (Chars × Expr))
  | exprStmt (e : Expr)
  | ifStmt (branches : List (Expr × List Stmt)) (els : Option (List Stmt))
  | forOf (v : Chars) (arrE : Expr) (body : List Stmt)
  | ret (e : Expr)

/-- Identifier start character. -/
def identStart (c : Char) : Bool := c.isAlpha || c == '_' || c == '$'

/-- Parse an identifier token. -/
def pIdent (s : Chars) : Option (Chars × Chars) :=
  match s with
  | c :: r => if identStart c then some (c :: r.takeWhile wordC, r.dropWhile wordC) else none
  | [] => none

def digitsToNat (ds : Chars) : Nat :=
  ds.foldl (fun a c => 10 * a + (c.toNat - 48)) 0

/-- Parse a (nonnegative integer) number token. -/
def pNumTok (s : Chars) : Option (Nat × Chars) :=
  let ds := s.takeWhile Char.isDigit
  if ds.isEmpty then none else some (digitsToNat ds, s.dropWhile Char.isDigit)

/-- JavaScript string-escape decoding for one escaped character. -/
def unescChar (c : Char) : Char :=
  if c == 'n' then '\n' else if c == 't' then '\t' else if c == 'r' then '\r' else c

/-- Parse the body of a single-quoted string literal (after the opening quote): the
escape `\c` denotes `unescChar c`; the literal ends at the first unescaped quote. -/
def pStrLit : Chars → Option (Chars × Chars)
  | [] => none
  | [c] => if c == '\'' then some ([], []) else none
  | c :: c2 :: r =>
    if c == '\'' then some ([], c2 :: r)
    else if c == '\\' then
      match pStrLit r with
      | some (a, b) => some (unescChar c2 :: a, b)
      | none => none
    else
      match pStrLit (c2 :: r) with
      | some (a, b) => some (c :: a, b)
      | none => none

/-- Skip whitespace. -/
def skipWs (s : Chars) : Chars := s.dropWhile wsC

/-- A keyword with a following word boundary; returns the remainder. -/
def kwAt (k : Chars) (s : Chars) : Option Chars :=
  if pfx k s then
    let r := List.drop k.length s
    match r with
    | c :: _ => if wordC c then none else some r
    | [] => some r
  else none

mutual

/-- Assignment level: `ident = rhs`, `ident += rhs`, else equality level. -/
def pAssign : Nat → Chars → Option (Expr × Chars)
  | 0, _ => none
  | n+1, s =>
    (match pIdent (skipWs s) with
     | some (id, r1) =>
       (match skipWs r1 with
        | '+' :: '=' :: r3 =>
          match pAssign n r3 with
          | some (e, r) => some (Expr.addAssign id e, r)
          | none => none
        | '=' :: c :: r3 =>
          if c == '=' then none
          else
            match pAssign n (c :: r3) with
            | some (e, r) => some (Expr.assign id e, r)
            | none => none
        | _ => none)
     | none => none).orElse (fun _ => pEq n s)

/-- Equality level: left-associative `==` chain. -/
def pEq : Nat → Chars → Option (Expr × Chars)
  | 0, _ => none
  | n+1, s =>
    match pAdd n s with
    | some (e, r) => pEqLoop n e r
    | none => none

def pEqLoop : Nat → Expr → Chars → Option (Expr × Chars)
  | 0, _, _ => none
  | n+1, acc, s =>
    match skipWs s with
    | '=' :: '=' :: r2 =>
      match pAdd n r2 with
      | some (e, r3) => pEqLoop n (Expr.eqOp acc e) r3
      | none => none
    | _ => some (acc, s)

/-- Additive level: left-associative `+` chain (`++` and `+=` excluded). -/
def pAdd : Nat → Chars → Option (Expr × Chars)
  | 0, _ => none
  | n+1, s =>
    match pMul n s with
    | some (e, r) => pAddLoop n e r
    | none => none

def pAddLoop : Nat → Expr → Chars → Option (Expr × Chars)
  | 0, _, _ => none
  | n+1, acc, s =>
    match skipWs s with
    | '+' :: c :: r2 =>
      if c == '+' || c == '=' then some (acc, s)
      else
        match pMul n (c :: r2) with
        | some (e, r3) => pAddLoop n (Expr.addOp acc e) r3
        | none => none
    | _ => some (acc, s)

/-- Multiplicative level: left-associative `*` chain. -/
def pMul : Nat → Chars → Option (Expr × Chars)
  | 0, _ => none
  | n+1, s =>
    match pPost n s with
    | some (e, r) => pMulLoop n e r
    | none => none

def pMulLoop : Nat → Expr → Chars → Option (Expr × Chars)
  | 0, _, _ => none
  | n+1, acc, s =>
    match skipWs s with
    | '*' :: r2 =>
      match pPost n r2 with
      | some (e, r3) => pMulLoop n (Expr.mulOp acc e) r3
      | none => none
    | _ => some (acc, s)

/-- Postfix level: member access `.field` and postfix `++` on an identifier. -/
def pPost : Nat → Chars → Option (Expr × Chars)
  | 0, _ => none
  | n+1, s =>
    match pPrimary n s with
    | some (e, r) => pPostLoop n e r
    | none => none

def pPostLoop : Nat → Expr → Chars → Option (Expr × Chars)
  | 0, _, _ => none
  | n+1, acc, s =>
    match skipWs s with
    | '.' :: r2 =>
      (match pIdent r2 with
       | some (f, r3) => pPostLoop n (Expr.member acc f) r3
       | none => some (acc, s))
    | '+' :: '+' :: r2 =>
      (match acc with
       | Expr.ident nm => pPostLoop n (Expr.postInc nm) r2
       | _ => some (acc, s))
    | _ => some (acc, s)

/-- Primary level: string literal, parenthesised expression, number (with optional
leading minus), keyword literal, identifier. -/
def pPrimary : Nat → Chars → Option (Expr × Chars)
  | 0, _ => none
  | n+1, s0 =>
    match skipWs s0 with
    | '\'' :: r =>
      (match pStrLit r with
       | some (a, b) => some (Expr.lit (Value.str a), b)
       | none => none)
    | '(' :: r =>
      (match pAssign n r with
       | some (e, r2) =>
         (match skipWs r2 with
          | ')' :: r3 => some (e, r3)
          | _ => none)
       | none => none)
    | '-' :: r =>
      (match pNumTok r with
       | some (k, r2) => some (Expr.lit (Value.num (-(k : Int))), r2)
       | none => none)
    | c :: r =>
      if c.isDigit then
        match pNumTok (c :: r) with
        | some (k, r2) => some (Expr.lit (Value.num (k : Int)), r2)
        | none => none
      else
        (match pIdent (c :: r) with
         | some (id, r2) =>
           if id == ("true").data then some (Expr.lit (Value.bool true), r2)
           else if id == ("false").data then some (Expr.lit (Value.bool false), r2)
           else if id == ("null").data then some (Expr.lit Value.vnull, r2)
           else if id == ("undefined").data then some (Expr.lit Value.undef, r2)
           else some (Expr.ident id, r2)
         | none => none)
    | [] => none

end

mutual

/-- Parse a statement list; stops at `}` or at the end of the input. -/
def pStmts : Nat → Chars → Option (List Stmt × Chars)
  | 0, _ => none
  | n+1, s =>
    match skipWs s with
    | [] => some ([], [])
    | '\x7d' :: r => some ([], '\x7d' :: r)
    | ';' :: r => pStmts n r
    | s1 =>
      match pStmt n s1 with
      | some (st, r) =>
        match pStmts n r with
        | some (sts, r2) => some (st :: sts, r2)
        | none => none
      | none => none

/-- Parse one statement. -/
def pStmt : Nat → Chars → Option (Stmt × Chars)
  | 0, _ => none
  | n+1, s =>
    match kwAt (("let").data) s with
    | some r =>
      (match pBinds n (skipWs r) with
       | some (bs, r2) =>
         (match skipWs r2 with
          | ';' :: r3 => some (Stmt.letDecl bs, r3)
          | _ => none)
       | none => none)
    | none =>
      match kwAt (("return").data) s with
      | some r =>
        (match pAssign n r with
         | some (e, r2) =>
           (match skipWs r2 with
            | ';' :: r3 => some (Stmt.ret e, r3)
            | _ => none)
         | none => none)
      | none =>
        match kwAt (("if").data) s with
        | some r => pIf n r
        | none =>
          match kwAt (("for").data) s with
          | some r => pFor n r
          | none =>
            match pAssign n s with
            | some (e, r2) =>
              (match skipWs r2 with
               | ';' :: r3 => some (Stmt.exprStmt e, r3)
               | _ => none)
            | none => none

/-- Parse `let` bindings `x=e,y=e₂,…`. -/
def pBinds : Nat → Chars → Option (List (Chars × Expr) × Chars)
  | 0, _ => none
  | n+1, s =>
    match pIdent (skipWs s) with
    | some (id, r1) =>
      (match skipWs r1 with
       | '=' :: r2 =>
         (match pAssign n r2 with
          | some (e, r3) =>
            (match skipWs r3 with
             | ',' :: r4 =>
               (match pBinds n r4 with
                | some (bs, r5) => some ((id, e) :: bs, r5)
                | none => none)
             | _ => some ([(id, e)], r3))
          | none => none)
       | _ => none)
    | none => none

/-- Parse `(cond){body}` and the `else` chain after `if`. -/
def pIf : Nat → Chars → Option (Stmt × Chars)
  | 0, _ => none
  | n+1, s =>
    match skipWs s with
    | '(' :: r =>
      (match pAssign n r with
       | some (cond, r2) =>
         (match skipWs r2 with
          | ')' :: r3 =>
            (match skipWs r3 with
             | '\x7b' :: r4 =>
               (match pStmts n r4 with
                | some (body, r5) =>
                  (match r5 with
                   | '\x7d' :: r6 =>
                     (match pElse n r6 with
                      | some (brs, els, r7) => some (Stmt.ifStmt ((cond, body) :: brs) els, r7)
                      | none => none)
                   | _ => none)
                | none => none)
             | _ => none)
          | _ => none)
       | none => none)
    | _ => none

/-- Parse the `else if`/`else` chain (possibly empty). -/
def pElse : Nat → Chars → Option (List (Expr × List Stmt) × Option (List Stmt) × Chars)
  | 0, _ => none
  | n+1, s =>
    match kwAt (("else").data) (skipWs s) with
    | some r =>
      (match kwAt (("if").data) (skipWs r) with
       | some r1 =>
         (match skipWs r1 with
          | '(' :: r2 =>
            (match pAssign n r2 with
             | some (cond, r3) =>
               (match skipWs r3 with
                | ')' :: r4 =>
                  (match skipWs r4 with
                   | '\x7b' :: r5 =>
                     (match pStmts n r5 with
                      | some (body, r6) =>
                        (match r6 with
                         | '\x7d' :: r7 =>
                           (match pElse n r7 with
                            | some (brs, els, r8) => some ((cond, body) :: brs, els, r8)
                            | none => none)
                         | _ => none)
                      | none => none)
                   | _ => none)
                | _ => none)
             | none => none)
          | _ => none)
       | none =>
         match skipWs r with
         | '\x7b' :: r1 =>
           (match pStmts n r1 with
            | some (body, r2) =>
              (match r2 with
               | '\x7d' :: r3 => some ([], some body, r3)
               | _ => none)
            | none => none)
         | _ => none)
    | none => some ([], none, s)

/-- Parse `(let v of e){body}` after `for`. -/
def pFor : Nat → Chars → Option (Stmt × Chars)
  | 0, _ => none
  | n+1, s =>
    match skipWs s with
    | '(' :: r =>
      (match kwAt (("let").data) (skipWs r) with
       | some r1 =>
         (match pIdent (skipWs r1) with
          | some (v, r2) =>
            (match kwAt (("of").data) (skipWs r2) with
             | some r3 =>
               (match pAssign n r3 with
                | some (e, r4) =>
                  (match skipWs r4 with
                   | ')' :: r5 =>
                     (match skipWs r5 with
                      | '\x7b' :: r6 =>
                        (match pStmts n r6 with
                         | some (body, r7) =>
                           (match r7 with
                            | '\x7d' :: r8 => some (Stmt.forOf v e body, r8)
                            | _ => none)
                         | none => none)
                      | _ => none)
                   | _ => none)
                | none => none)
             | none => none)
          | none => none)
       | none => none)
    | _ => none

end

/-! ## Dynamic semantics of the emitted fragment -/

def natChars (n : Nat) : Chars := Nat.toDigits 10 n

def intChars : Int → Chars
  | Int.ofNat n => natChars n
  | Int.negSucc m => '-' :: natChars (m + 1)

mutual

/-- JavaScript string coercion of a value (restricted to the reachable shapes). -/
def valToStr : Value → Chars
  | Value.undef => ("undefined").data
  | Value.vnull => ("null").data
  | Value.nan => ("NaN").data
  | Value.bool b => if b then ("true").data else ("false").data
  | Value.num n => intChars n
  | Value.str s => s
  | Value.arr xs => arrToStr xs
  | Value.obj _ => ("[object Object]").data

/-- `Array.prototype.toString`: elements joined with `,`, holes/`null`/`undefined`
rendering empty. -/
def arrToStr : List Value → Chars
  | [] => []
  | [v] =>
    (match v with
     | Value.undef => []
     | Value.vnull => []
     | w => valToStr w)
  | v :: r =>
    (match v with
     | Value.undef => []
     | Value.vnull => []
     | w => valToStr w) ++ [','] ++ arrToStr r

end

/-- JavaScript `ToNumber` on the reachable shapes (string grammar restricted to the
unsigned decimal integers a template can produce). -/
def toNumV : Value → Value
  | Value.num n => Value.num n
  | Value.nan => Value.nan
  | Value.bool b => Value.num (if b then 1 else 0)
  | Value.vnull => Value.num 0
  | Value.undef => Value.nan
  | Value.str s =>
    let t := trimWs s
    if t.isEmpty then Value.num 0
    else if t.all Char.isDigit then Value.num (digitsToNat t : Int)
    else Value.nan
  | Value.arr _ => Value.nan
  | Value.obj _ => Value.nan

/-- JavaScript truthiness. -/
def truthy : Value → Bool
  | Value.undef => false
  | Value.vnull => false
  | Value.nan => false
  | Value.bool b => b
  | Value.num n => !(n == 0)
  | Value.str s => !s.isEmpty
  | Value.arr _ => true
  | Value.obj _ => true

/-- JavaScript loose equality `==` on the reachable shapes (distinct object/array
operands compare unequal, as distinct references do). -/
def looseEq : Value → Value → Bool
  | Value.nan, _ => false
  | _, Value.nan => false
  | Value.num a, Value.num b => a == b
  | Value.str a, Value.str b => a == b
  | Value.bool a, Value.bool b => a == b
  | Value.undef, Value.undef => true
  | Value.vnull, Value.vnull => true
  | Value.undef, Value.vnull => true
  | Value.vnull, Value.undef => true
  | Value.num a, Value.str s =>
    (match toNumV (Value.str s) with
     | Value.num b => a == b
     | _ => false)
  | Value.str s, Value.num b =>
    (match toNumV (Value.str s) with
     | Value.num a => a == b
     | _ => false)
  | Value.bool a, Value.num b => (if a then (1 : Int) else 0) == b
  | Value.num a, Value.bool b => a == (if b then (1 : Int) else 0)
  | Value.bool a, Value.str s =>
    (match toNumV (Value.str s) with
     | Value.num b => (if a then (1 : Int) else 0) == b
     | _ => false)
  | Value.str s, Value.bool b =>
    (match toNumV (Value.str s) with
     | Value.num a => a == (if b then (1 : Int) else 0)
     | _ => false)
  | _, _ => false

/-- JavaScript `+`: string concatenation when either operand coerces to a string
primitive, numeric addition otherwise. -/
def addV (a b : Value) : Value :=
  match a, b with
  | Value.str x, _ => Value.str (x ++ valToStr b)
  | _, Value.str y => Value.str (valToStr a ++ y)
  | Value.arr _, _ => Value.str (valToStr a ++ valToStr b)
  | _, Value.arr _ => Value.str (valToStr a ++ valToStr b)
  | Value.obj _, _ => Value.str (valToStr a ++ valToStr b)
  | _, Value.obj _ => Value.str (valToStr a ++ valToStr b)
  | _, _ =>
    match toNumV a, toNumV b with
    | Value.num x, Value.num y => Value.num (x + y)
    | _, _ => Value.nan

/-- JavaScript `*`. -/
def mulV (a b : Value) : Value :=
  match toNumV a, toNumV b with
  | Value.num x, Value.num y => Value.num (x * y)
  | _, _ => Value.nan

/-- Association-list lookup (first match wins). -/
def lookupA : List (Chars × Value) → Chars → Option Value
  | [], _ => none
  | (k, v) :: r, n => if k == n then some v else lookupA r n

/-- Property read; `none` models the `TypeError` of reading from `undefined`/`null`. -/
def getMember (v : Value) (f : Chars) : Option Value :=
  match v with
  | Value.undef => none
  | Value.vnull => none
  | Value.obj fs => some ((lookupA fs f).getD Value.undef)
  | Value.arr xs => if f == ("length").data then some (Value.num (xs.length : Int)) else some Value.undef
  | _ => some Value.undef

/-- The scope stack: innermost block scope first. -/
abbrev Scopes := List (List (Chars × Value))

def lookupV : Scopes → Chars → Option Value
  | [], _ => none
  | sc :: rest, n =>
    match lookupA sc n with
    | some v => some v
    | none => lookupV rest n

def containsKey : List (Chars × Value) → Chars → Bool
  | [], _ => false
  | (k, _) :: r, n => k == n || containsKey r n

def updateA : List (Chars × Value) → Chars → Value → List (Chars × Value)
  | [], _, _ => []
  | (k, w) :: r, n, v => if k == n then (k, v) :: r else (k, w) :: updateA r n v

/-- Assignment: update the binding in the innermost scope that holds it (the emitted
code only ever assigns declared names). -/
def setV : Scopes → Chars → Value → Scopes
  | [], _, _ => []
  | sc :: rest, n, v =>
    if containsKey sc n then updateA sc n v :: rest
    else sc :: setV rest n v

/-- Declare a `let` binding in the innermost scope. -/
def declV (s : Scopes) (n : Chars) (v : Value) : Scopes :=
  match s with
  | sc :: rest => ((n, v) :: sc) :: rest
  | [] => [[(n, v)]]

/-- Evaluate an expression; `none` models a runtime exception. -/
def evalE : Nat → Scopes → Expr → Option (Value × Scopes)
  | 0, _, _ => none
  | n+1, sc, e =>
    match e with
    | Expr.lit v => some (v, sc)
    | Expr.ident nm =>
      (match lookupV sc nm with
       | some v => some (v, sc)
       | none => none)
    | Expr.member e1 f =>
      (match evalE n sc e1 with
       | some (v, sc2) =>
         (match getMember v f with
          | some w => some (w, sc2)
          | none => none)
       | none => none)
    | Expr.eqOp a b =>
      (match evalE n sc a with
       | some (va, sc2) =>
         (match evalE n sc2 b with
          | some (vb, sc3) => some (Value.bool (looseEq va vb), sc3)
          | none => none)
       | none => none)
    | Expr.addOp a b =>
      (match evalE n sc a with
       | some (va, sc2) =>
         (match evalE n sc2 b with
          | some (vb, sc3) => some (addV va vb, sc3)
          | none => none)
       | none => none)
    | Expr.mulOp a b =>
      (match evalE n sc a with
       | some (va, sc2) =>
         (match evalE n sc2 b with
          | some (vb, sc3) => some (mulV va vb, sc3)
          | none => none)
       | none => none)
    | Expr.assign nm e1 =>
      (match evalE n sc e1 with
       | some (v, sc2) => some (v, setV sc2 nm v)
       | none => none)
    | Expr.addAssign nm e1 =>
      (match lookupV sc nm with
       | some old =>
         (match evalE n sc e1 with
          | some (v, sc2) =>
            let w := addV old v
            some (w, setV sc2 nm w)
          | none => none)
       | none => none)
    | Expr.postInc nm =>
      (match lookupV sc nm with
       | some old =>
         let w := match toNumV old with
           | Value.num k => Value.num (k + 1)
           | _ => Value.nan
         some (old, setV sc nm w)
       | none => none)

mutual

/-- Execute a statement list; result `(scopes, none)` falls through, `(scopes, some v)`
returned; outer `none` models a runtime exception. -/
def execS : Nat → Scopes → List Stmt → Option (Scopes × Option Value)
  | 0, _, _ => none
  | _, sc, [] => some (sc, none)
  | n+1, sc, st :: rest =>
    match st with
    | Stmt.letDecl bs =>
      (match execBinds n sc bs with
       | some sc2 => execS n sc2 rest
       | none => none)
    | Stmt.exprStmt e =>
      (match evalE n sc e with
       | some (_, sc2) => execS n sc2 rest
       | none => none)
    | Stmt.ret e =>
      (match evalE n sc e with
       | some (v, sc2) => some (sc2, some v)
       | none => none)
    | Stmt.ifStmt brs els =>
      (match execIf n sc brs els with
       | some (sc2, none) => execS n sc2 rest
       | some (sc2, some v) => some (sc2, some v)
       | none => none)
    | Stmt.forOf v arrE body =>
      (match evalE n sc arrE with
       | some (av, sc2) =>
         (match av with
          | Value.arr xs =>
            (match execFor n sc2 v xs body with
             | some (sc3, none) => execS n sc3 rest
             | some (sc3, some rv) => some (sc3, some rv)
             | none => none)
          | _ => none)
       | none => none)

/-- Evaluate and declare `let` bindings in order. -/
def execBinds : Nat → Scopes → List (Chars × Expr) → Option Scopes
  | 0, _, _ => none
  | _, sc, [] => some sc
  | n+1, sc, (nm, e) :: bs =>
    match evalE n sc e with
    | some (v, sc2) => execBinds n (declV sc2 nm v) bs
    | none => none

/-- Execute an `if`/`else if`/`else` chain; each taken block runs in a fresh scope. -/
def execIf : Nat → Scopes → List (Expr × List Stmt) → Option (List Stmt) → Option (Scopes × Option Value)
  | 0, _, _, _ => none
  | n+1, sc, [], els =>
    (match els with
     | some body =>
       (match execS n ([] :: sc) body with
        | some (sc2, r) => some (sc2.drop 1, r)
        | none => none)
     | none => some (sc, none))
  | n+1, sc, (cond, body) :: brs, els =>
    match evalE n sc cond with
    | some (cv, sc2) =>
      if truthy cv then
        match execS n ([] :: sc2) body with
        | some (sc3, r) => some (sc3.drop 1, r)
        | none => none
      else execIf n sc2 brs els
    | none => none

/-- Execute a `for…of` loop: one fresh scope binding the loop variable per element. -/
def execFor : Nat → Scopes → Chars → List Value → List Stmt → Option (Scopes × Option Value)
  | 0, _, _, _, _ => none
  | _, sc, _, [], _ => some (sc, none)
  | n+1, sc, v, x :: xs, body =>
    match execS n ([(v, x)] :: sc) body with
    | some (sc2, none) => execFor n (sc2.drop 1) v xs body
    | some (sc2, some rv) => some (sc2.drop 1, some rv)
    | none => none

end

/-! ## Instantiation (`new Function`) and `Engine.render` -/

/-- The `let` names declared directly in a statement list (its own block scope). -/
def letNamesTop (stmts : List Stmt) : List Chars :=
  stmts.flatMap (fun st =>
    match st with
    | Stmt.letDecl bs => bs.map Prod.fst
    | _ => [])

def nodupB : List Chars → Bool
  | [] => true
  | c :: r => !(r.contains c) && nodupB r

/-- Every block scope of the program declares each `let` name at most once
(JavaScript's early error for `let` redeclaration). -/
def validS : Nat → List Stmt → Bool
  | 0, _ => false
  | n+1, stmts =>
    nodupB (letNamesTop stmts) &&
    stmts.all (fun st =>
      match st with
      | Stmt.ifStmt brs els =>
        brs.all (fun b => validS n b.2) &&
        (match els with
         | some b => validS n b
         | none => true)
      | Stmt.forOf _ _ body => validS n body
      | _ => true)

/-- Modelled from the host language: `new Function("data", source)` parses the source
and raises an early `SyntaxError` when the function-body top scope redeclares a `let`
name or declares `let data` against the parameter `data`; otherwise it yields the
program. -/
def instantiate (src : Chars) : Option (List Stmt) :=
  match pStmts (src.length + 100) src with
  | some (prog, rest) =>
    if rest.isEmpty && validS (src.length + 100) prog
        && !((letNamesTop prog).contains (("data").data)) then
      some prog
    else none
  | none => none

/-- `Object.assign({ ...this.attributes }, data)`: the per-call data's own fields win
over the copied global attributes. -/
def mergeData (attrs : List (Chars × Value)) (d : Value) : Value :=
  match d with
  | Value.obj fs => Value.obj (fs ++ attrs)
  | _ => Value.obj attrs

mutual

/-- Size of a value (execution-fuel budget for loops over the data). -/
def valW : Value → Nat
  | Value.arr xs => 1 + listW xs
  | Value.obj fs => 1 + fieldsW fs
  | _ => 1

def listW : List Value → Nat
  | [] => 0
  | v :: r => 1 + valW v + listW r

def fieldsW : List (Chars × Value) → Nat
  | [] => 0
  | (_, v) :: r => 1 + valW v + fieldsW r

end

/-- `Engine.render` over an engine whose Global Attribute Map is `attrs`: compile the
template, instantiate the generated source, and run it on the merged data record.
`none` models a thrown error (at instantiation or at run time). -/
def render (attrs : List (Chars × Value)) (tmpl : Chars) (d : Value) : Option Chars :=
  match instantiate (genSource tmpl) with
  | some prog =>
    (match execS (((genSource tmpl).length + 4) * (valW (mergeData attrs d) + 4) + 100)
        [[(("data").data, mergeData attrs d)]] prog with
     | some (_, some rv) => some (valToStr rv)
     | some (_, none) => none
     | none => none)
  | none => none

/-! ## The engine as a state machine (Global Attribute Map) -/

/-- `Object.assign(target, b)`: the keys of `b` win (first-match-wins lookup order). -/
def objAssign (a b : List (Chars × Value)) : List (Chars × Value) := b ++ a

/-- The operations of the public engine surface that touch the Global Attribute Map:
`Engine.import` and `Engine.render`. -/
inductive EngineOp where
  | importAttrs (attrs : List (Chars × Value))
  | doRender (tmpl : Chars) (d : Value)

/-- One engine step over (attribute map, log of render outputs): `import` merges into
the map (`Object.assign(this.attributes, attributes)`); `render` reads the map through
the spread copy `{ ...this.attributes }` and appends its output. -/
def stepEngine (st : List (Chars × Value) × List (Option Chars)) (op : EngineOp) :
    List (Chars × Value) × List (Option Chars) :=
  match op with
  | EngineOp.importAttrs b => (objAssign st.1 b, st.2)
  | EngineOp.doRender t d => (st.1, st.2 ++ [render st.1 t d])

/-- Run a sequence of engine operations from a fresh engine. -/
def runEngine (ops : List EngineOp) : List (Chars × Value) × List (Option Chars) :=
  ops.foldl stepEngine ([], [])

/-- The attribute records imported by a sequence of operations. -/
def importsOf (ops : List EngineOp) : List (List (Chars × Value)) :=
  ops.filterMap (fun op =>
    match op with
    | EngineOp.importAttrs b => some b
    | EngineOp.doRender _ _ => none)

/-! ## Template and data constants used by the claims -/

def tmplIter : Chars := ("\x7b\x7b~ items:it:i \x7d\x7d\x7b\x7b= i \x7d\x7d-\x7b\x7b= it \x7d\x7d;\x7b\x7b~ \x7d\x7d").data

def dataItems : Value :=
  Value.obj [(("items").data, Value.arr [Value.str (("a").data), Value.str (("b").data)])]

def tmplCond : Chars := ("\x7b\x7b? a==1 \x7d\x7dX\x7b\x7b?? a==2 \x7d\x7dY\x7b\x7b?? \x7d\x7dZ\x7b\x7b? \x7d\x7d").data

def dataA (n : Int) : Value := Value.obj [(("a").data, Value.num n)]

def tmplUser : Chars := ("\x7b\x7b= user.name \x7d\x7d").data

def dataUser : Value :=
  Value.obj [(("user").data, Value.obj [(("name").data, Value.str (("Ann").data))])]

def tmplOut : Chars := ("\x7b\x7b= out \x7d\x7d").data

def tmplData : Chars := ("\x7b\x7b= data \x7d\x7d").data

/-! ## Theorems -/

/-- C1: the iterative tag compiles to a null-guarded loop whose index is initialised
to `-1` and incremented as the first statement of the loop body; rendering reports the
first element at index 0, and an absent `items` field renders to the empty string with
no error. -/
theorem iterative_tag_loop :
    genSource tmplIter =
      ("let i=data.i,it=data.it,items=data.items;let out='';if(items)\x7blet i=-1;for (let it of items)\x7bi++;out+=''+( i )+'-'+( it )+';';\x7d\x7dout+='';return out;").data
    ∧ render [] tmplIter dataItems = some (("0-a;1-b;").data)
    ∧ render [] tmplIter (Value.obj []) = some [] := by
  refine ⟨by decide, by decide, by decide⟩

/-- C2: a conditional opener with a condition rewrites to `if(cond){`, the alternate
sigil with a condition to `}else if(cond){`, the alternate sigil with an empty
condition to `}else{`, the primary sigil with an empty condition to `}`; rendering the
documented chain yields `Y` for `a=2` and `Z` for `a=9`. -/
theorem conditional_tag_forms :
    (condGo 9 (("\x7b\x7b? a==1 \x7d\x7d").data)).1 = output ((("if(a==1)\x7b").data))
    ∧ (condGo 10 (("\x7b\x7b?? a==2 \x7d\x7d").data)).1 = output ((("\x7delse if(a==2)\x7b").data))
    ∧ (condGo 6 (("\x7b\x7b?? \x7d\x7d").data)).1 = output ((("\x7delse\x7b").data))
    ∧ (condGo 5 (("\x7b\x7b? \x7d\x7d").data)).1 = output (['\x7d'])
    ∧ render [] tmplCond (dataA 2) = some [('Y' : Char)]
    ∧ render [] tmplCond (dataA 9) = some [('Z' : Char)] := by
  refine ⟨by decide, by decide, by decide, by decide, by decide, by decide⟩

/-- C4: the inferencer hoists read and locally-assigned identifiers alike
(`total = price*qty` hoists all three), a member chain contributes only its head
identifier (`user.name` hoists `user` alone), and the member-access render works. -/
theorem declare_hoisting :
    varNames [(("total = price*qty").data)] = [("total").data, ("price").data, ("qty").data]
    ∧ declare [(("total = price*qty").data)] =
        ("let total=data.total,price=data.price,qty=data.qty;").data
    ∧ varNames [((" user.name ").data)] = [("user").data]
    ∧ genSource tmplUser = ("let user=data.user;let out=''+( user.name )+'';return out;").data
    ∧ render [] tmplUser dataUser = some (("Ann").data) := by
  refine ⟨by decide, by decide, by decide, by decide, by decide⟩

/-- C10: the `Variable.KEYWORDS` blacklist omits `data` and `out`, so a template whose
embedded code leaves `data` or `out` as a surviving token makes the prologue redeclare
the generated function's own parameter or output accumulator, and compilation fails at
instantiation instead of returning a renderer. -/
theorem reserved_name_collision :
    (keywords.contains (("data").data)) = false
    ∧ (keywords.contains (("out").data)) = false
    ∧ genSource tmplOut = ("let out=data.out;let out=''+( out )+'';return out;").data
    ∧ genSource tmplData = ("let data=data.data;let out=''+( data )+'';return out;").data
    ∧ (instantiate (genSource tmplOut)).isNone = true
    ∧ (instantiate (genSource tmplData)).isNone = true
    ∧ (∀ d : Value, render [] tmplOut d = none)
    ∧ (∀ d : Value, render [] tmplData d = none) := by
  refine ⟨by decide, by decide, by decide, by decide, by decide, by decide, ?_, ?_⟩
  · intro d
    show (match instantiate (genSource tmplOut) with
      | some prog =>
        (match execS (((genSource tmplOut).length + 4) * (valW (mergeData [] d) + 4) + 100)
            [[(("data").data, mergeData [] d)]] prog with
         | some (_, some rv) => some (valToStr rv)
         | some (_, none) => none
         | none => none)
      | none => none) = none
    rw [show instantiate (genSource tmplOut) = none from
      Option.isNone_iff_eq_none.mp (by decide)]
  · intro d
    show (match instantiate (genSource tmplData) with
      | some prog =>
        (match execS (((genSource tmplData).length + 4) * (valW (mergeData [] d) + 4) + 100)
            [[(("data").data, mergeData [] d)]] prog with
         | some (_, some rv) => some (valToStr rv)
         | some (_, none) => none
         | none => none)
      | none => none) = none
    rw [show instantiate (genSource tmplData) = none from
      Option.isNone_iff_eq_none.mp (by decide)]

/-! ## C5: fragment order -/

def tmplMix : Chars := ("\x7b\x7b? c \x7d\x7d\x7b\x7b= x \x7d\x7d\x7b\x7b? \x7d\x7d").data

/-- C5 counterexample: in `{{? c }}{{= x }}{{? }}` the conditional tag (code `c`)
occurs textually before the interpolation tag (code ` x `), yet the Code Fragment List
puts the interpolation fragment first, because the interpolation pass runs over the
whole text before the conditional pass. -/
theorem fragment_order_counterexample :
    tmplMix = (("\x7b\x7b? c \x7d\x7d").data) ++ (("\x7b\x7b= x \x7d\x7d").data) ++ (("\x7b\x7b? \x7d\x7d").data)
    ∧ compileCodes tmplMix = [(" x ").data, ("c").data] := by
  refine ⟨by decide, by decide⟩

/-- C5 amended: the Code Fragment List is grouped by tag family in the fixed pass
order (interpolation, conditional, iterative, evaluation), each group in text order;
it is not globally ordered by text position across families. -/
theorem fragment_order_amended :
    (∀ t : Chars,
      compileCodes t =
        (interpGo ((escape (reduce (block t))).length + 1) (escape (reduce (block t)))).2
        ++ (condGo (((interpGo ((escape (reduce (block t))).length + 1) (escape (reduce (block t)))).1).length + 1)
              ((interpGo ((escape (reduce (block t))).length + 1) (escape (reduce (block t)))).1)).2
        ++ (iterGo (((condGo (((interpGo ((escape (reduce (block t))).length + 1) (escape (reduce (block t)))).1).length + 1)
              ((interpGo ((escape (reduce (block t))).length + 1) (escape (reduce (block t)))).1)).1).length + 1)
              ((condGo (((interpGo ((escape (reduce (block t))).length + 1) (escape (reduce (block t)))).1).length + 1)
              ((interpGo ((escape (reduce (block t))).length + 1) (escape (reduce (block t)))).1)).1)).2
        ++ (evalGo (((iterGo (((condGo (((interpGo ((escape (reduce (block t))).length + 1) (escape (reduce (block t)))).1).length + 1)
              ((interpGo ((escape (reduce (block t))).length + 1) (escape (reduce (block t)))).1)).1).length + 1)
              ((condGo (((interpGo ((escape (reduce (block t))).length + 1) (escape (reduce (block t)))).1).length + 1)
              ((interpGo ((escape (reduce (block t))).length + 1) (escape (reduce (block t)))).1)).1)).1).length + 1)
              ((iterGo (((condGo (((interpGo ((escape (reduce (block t))).length + 1) (escape (reduce (block t)))).1).length + 1)
              ((interpGo ((escape (reduce (block t))).length + 1) (escape (reduce (block t)))).1)).1).length + 1)
              ((condGo (((interpGo ((escape (reduce (block t))).length + 1) (escape (reduce (block t)))).1).length + 1)
              ((interpGo ((escape (reduce (block t))).length + 1) (escape (reduce (block t)))).1)).1)).1)).2)
    ∧ compileCodes (("\x7b\x7b= x \x7d\x7dA\x7b\x7b= y \x7d\x7d\x7b\x7b? c \x7d\x7dB\x7b\x7b? d \x7d\x7d").data)
        = [(" x ").data, (" y ").data, ("c").data, ("d").data] := by
  exact ⟨fun t => rfl, by decide⟩

/-! ## C7: escape / unescape -/

theorem escQ_append (a b : Chars) : escQ (a ++ b) = escQ a ++ escQ b := by
  induction a with
  | nil => rfl
  | cons c r ih =>
    by_cases h : c = '\''
    · subst h
      show escQ ('\'' :: (r ++ b)) = escQ ('\'' :: r) ++ escQ b
      rw [show escQ ('\'' :: (r ++ b)) = '\\' :: '\'' :: escQ (r ++ b) from rfl]
      rw [show escQ ('\'' :: r) = '\\' :: '\'' :: escQ r from rfl]
      simp [ih]
    · have hb : (c == '\'') = false := beq_eq_false_iff_ne.mpr h
      show escQ (c :: (r ++ b)) = escQ (c :: r) ++ escQ b
      rw [show escQ (c :: (r ++ b)) = c :: escQ (r ++ b) from by simp [escQ, hb]]
      rw [show escQ (c :: r) = c :: escQ r from by simp [escQ, hb]]
      simp [ih]

/-- The single-character view of `escape`. -/
def escSeg (c : Char) : Chars :=
  if c == '\\' then ['\\', '\\'] else if c == '\'' then ['\\', '\''] else [c]

theorem escape_cons (c : Char) (t : Chars) : escape (c :: t) = escSeg c ++ escape t := by
  by_cases h1 : c = '\\'
  · subst h1
    show escQ (escB ('\\' :: t)) = _
    rw [show escB ('\\' :: t) = ['\\', '\\'] ++ escB t from rfl, escQ_append]
    rfl
  · have hb : (c == '\\') = false := beq_eq_false_iff_ne.mpr h1
    by_cases h2 : c = '\''
    · subst h2
      show escQ (escB ('\'' :: t)) = _
      rw [show escB ('\'' :: t) = ['\''] ++ escB t from rfl, escQ_append]
      rfl
    · have hq : (c == '\'') = false := beq_eq_false_iff_ne.mpr h2
      show escQ (escB (c :: t)) = _
      rw [show escB (c :: t) = [c] ++ escB t from by simp [escB, hb], escQ_append]
      rw [show escQ [c] = [c] from by simp [escQ, hq]]
      simp [escSeg, hb, hq, escape]

theorem escape_head_ne_quote (t : Chars) (q : Char) (r : Chars) (h : escape t = q :: r) :
    (q == '\'') = false := by
  cases t with
  | nil => exact List.noConfusion (show ([] : Chars) = q :: r from h)
  | cons c t2 =>
    rw [escape_cons] at h
    by_cases h1 : c = '\\'
    · subst h1
      have h2 : ('\\' :: '\\' :: escape t2 : Chars) = q :: r := by simpa [escSeg] using h
      rw [← (List.cons_eq_cons.mp h2).1]; rfl
    · have hb : (c == '\\') = false := beq_eq_false_iff_ne.mpr h1
      by_cases h2 : c = '\''
      · subst h2
        have h3 : ('\\' :: '\'' :: escape t2 : Chars) = q :: r := by simpa [escSeg] using h
        rw [← (List.cons_eq_cons.mp h3).1]; rfl
      · have hq : (c == '\'') = false := beq_eq_false_iff_ne.mpr h2
        have h3 : (c :: escape t2 : Chars) = q :: r := by simpa [escSeg, hb, hq] using h
        rw [← (List.cons_eq_cons.mp h3).1]
        exact hq

theorem unescape_cons_ne (c : Char) (x : Chars) (hb : (c == '\\') = false) :
    unescape (c :: x) = c :: unescape x := by
  cases x with
  | nil => rfl
  | cons b r => simp [unescape, hb]

theorem unescape_escape (t : Chars) : unescape (escape t) = escB t := by
  induction t with
  | nil => rfl
  | cons c r ih =>
    rw [escape_cons]
    by_cases h1 : c = '\\'
    · subst h1
      rw [show escSeg '\\' = ['\\', '\\'] from rfl]
      show unescape ('\\' :: '\\' :: escape r) = escB ('\\' :: r)
      rw [show unescape ('\\' :: '\\' :: escape r) = '\\' :: unescape ('\\' :: escape r) from by
        cases he : escape r with
        | nil => rfl
        | cons q rest => simp [unescape]]
      have h2 : unescape ('\\' :: escape r) = '\\' :: unescape (escape r) := by
        cases he : escape r with
        | nil => rfl
        | cons q rest =>
          have hq := escape_head_ne_quote r q rest he
          simp [unescape, hq]
      rw [h2, ih]
      rfl
    · have hb : (c == '\\') = false := beq_eq_false_iff_ne.mpr h1
      by_cases h2 : c = '\''
      · subst h2
        rw [show escSeg '\'' = ['\\', '\''] from rfl]
        show unescape ('\\' :: '\'' :: escape r) = escB ('\'' :: r)
        rw [show unescape ('\\' :: '\'' :: escape r) = '\'' :: unescape (escape r) from rfl, ih]
        rfl
      · have hq : (c == '\'') = false := beq_eq_false_iff_ne.mpr h2
        rw [show escSeg c = [c] from by simp [escSeg, hb, hq]]
        show unescape (c :: escape r) = escB (c :: r)
        rw [unescape_cons_ne c _ hb, ih]
        simp [escB, hb]

theorem escB_length (t : Chars) : t.length ≤ (escB t).length := by
  induction t with
  | nil => simp [escB]
  | cons c r ih =>
    by_cases h : c = '\\'
    · simp [escB, h]; omega
    · have hb : (c == '\\') = false := beq_eq_false_iff_ne.mpr h
      simp [escB, hb]; omega

theorem contains_cons_eq (c a : Char) (r : Chars) :
    ((c :: r).contains a) = ((a == c) || r.contains a) := rfl

theorem escB_fixed (t : Chars) (h : escB t = t) : t.contains '\\' = false := by
  induction t with
  | nil => rfl
  | cons c r ih =>
    by_cases hc : c = '\\'
    · subst hc
      rw [show escB ('\\' :: r) = '\\' :: '\\' :: escB r from rfl] at h
      have h2 : ('\\' :: escB r : Chars) = r := (List.cons_eq_cons.mp h).2
      have h3 := congrArg List.length h2
      simp only [List.length_cons] at h3
      have h4 := escB_length r
      omega
    · have hb : (c == '\\') = false := beq_eq_false_iff_ne.mpr hc
      rw [show escB (c :: r) = c :: escB r from by simp [escB, hb]] at h
      have h2 : escB r = r := (List.cons_eq_cons.mp h).2
      have h5 : ('\\' == c) = false := beq_eq_false_iff_ne.mpr (fun hh => hc hh.symm)
      rw [contains_cons_eq, h5, ih h2]
      rfl

/-- C7: `escape` doubles backslashes and then escapes quotes, `unescape` undoes quote
escaping only; the round trip `unescape ∘ escape` restores exactly the strings with no
backslash, and never restores a string containing one. -/
theorem escape_roundtrip :
    (∀ t : Chars, unescape (escape t) = escB t)
    ∧ (∀ t : Chars, t.contains '\\' = false → unescape (escape t) = t)
    ∧ (∀ t : Chars, t.contains '\\' = true → unescape (escape t) ≠ t) := by
  refine ⟨unescape_escape, ?_, ?_⟩
  · intro t h
    rw [unescape_escape]
    induction t with
    | nil => rfl
    | cons c r ih =>
      rw [contains_cons_eq] at h
      have h1 : ('\\' == c) = false := by
        cases hx : ('\\' == c) with
        | false => rfl
        | true => rw [hx] at h; exact absurd h (by simp)
      have h2 : r.contains '\\' = false := by
        rw [h1] at h; simpa using h
      have hb : (c == '\\') = false :=
        beq_eq_false_iff_ne.mpr (fun hh => (beq_eq_false_iff_ne.mp h1) hh.symm)
      simp [escB, hb, ih h2]
  · intro t h hEq
    rw [unescape_escape] at hEq
    rw [escB_fixed t hEq] at h
    exact Bool.false_ne_true h

/-- C7 witness. -/
theorem escape_roundtrip_witness :
    unescape (escape (("a'b").data)) = ("a'b").data
    ∧ unescape (escape (['\\'])) ≠ ['\\'] := by
  exact ⟨escape_roundtrip.2.1 (("a'b").data) (by decide),
    escape_roundtrip.2.2 ['\\'] (by decide)⟩

/-! ## C3: tag-free templates render to their normalized form -/

/-- `hasBr s` tests whether `{{` occurs in `s`. -/
def hasBr : Chars → Bool
  | [] => false
  | [_] => false
  | a :: b :: r => (('\x7b' == a) && ('\x7b' == b)) || hasBr (b :: r)

theorem hasBr_tail (c : Char) (r : Chars) (h : hasBr (c :: r) = false) : hasBr r = false := by
  cases r with
  | nil => rfl
  | cons b r2 =>
    rw [hasBr] at h
    exact (Bool.or_eq_false_iff.mp h).2

/-- Any pattern starting with two braces fails at the head of a `{{`-free text. -/
theorem pfx_braces (c : Char) (r p : Chars) (h : hasBr (c :: r) = false) :
    pfx ('\x7b' :: '\x7b' :: p) (c :: r) = false := by
  cases r with
  | nil => simp [pfx]
  | cons b r2 =>
    rw [hasBr] at h
    have h1 : (('\x7b' == c) && ('\x7b' == b)) = false := (Bool.or_eq_false_iff.mp h).1
    show (('\x7b' == c) && (('\x7b' == b) && pfx p r2)) = false
    rw [← Bool.and_assoc, h1, Bool.false_and]

theorem matchDefine_noTag (c : Char) (r : Chars) (h : hasBr (c :: r) = false) :
    matchDefine (c :: r) = none := by
  unfold matchDefine
  rw [show pfx obraceLt (c :: r) = false from pfx_braces c r (['<']) h]
  rfl

theorem matchHolder_noTag (c : Char) (r : Chars) (h : hasBr (c :: r) = false) :
    matchHolder (c :: r) = none := by
  unfold matchHolder
  rw [show pfx obraceGt (c :: r) = false from pfx_braces c r (['>']) h]
  rfl

theorem defineGo_noTag (t : Chars) : ∀ (fuel : Nat) (bs : Blocks),
    hasBr t = false → defineGo fuel bs t = (t, bs) := by
  induction t with
  | nil =>
    intro fuel bs _
    cases fuel <;> rfl
  | cons c r ih =>
    intro fuel bs h
    cases fuel with
    | zero => rfl
    | succ n =>
      rw [defineGo, matchDefine_noTag c r h, ih n bs (hasBr_tail c r h)]

theorem holderGo_noTag (t : Chars) : ∀ (fuel : Nat) (bs : Blocks),
    hasBr t = false → holderGo fuel bs t = t := by
  induction t with
  | nil =>
    intro fuel bs _
    cases fuel <;> rfl
  | cons c r ih =>
    intro fuel bs h
    cases fuel with
    | zero => rfl
    | succ n =>
      rw [holderGo, matchHolder_noTag c r h, ih n bs (hasBr_tail c r h)]

theorem block_noTag (t : Chars) (h : hasBr t = false) : block t = t := by
  unfold block
  rw [defineGo_noTag t (t.length + 1) [] h]
  exact holderGo_noTag t (t.length + 1) [] h

theorem interpGo_noTag (t : Chars) : ∀ fuel : Nat,
    hasBr t = false → interpGo fuel t = (t, []) := by
  induction t with
  | nil => intro fuel _; cases fuel <;> rfl
  | cons c r ih =>
    intro fuel h
    cases fuel with
    | zero => rfl
    | succ n =>
      rw [interpGo,
        show pfx obraceEq (c :: r) = false from pfx_braces c r (['=']) h,
        ih n (hasBr_tail c r h)]
      rfl

theorem condGo_noTag (t : Chars) : ∀ fuel : Nat,
    hasBr t = false → condGo fuel t = (t, []) := by
  induction t with
  | nil => intro fuel _; cases fuel <;> rfl
  | cons c r ih =>
    intro fuel h
    cases fuel with
    | zero => rfl
    | succ n =>
      rw [condGo,
        show pfx obraceQm (c :: r) = false from pfx_braces c r (['?']) h,
        ih n (hasBr_tail c r h)]
      rfl

theorem iterGo_noTag (t : Chars) : ∀ fuel : Nat,
    hasBr t = false → iterGo fuel t = (t, []) := by
  induction t with
  | nil => intro fuel _; cases fuel <;> rfl
  | cons c r ih =>
    intro fuel h
    cases fuel with
    | zero => rfl
    | succ n =>
      rw [iterGo,
        show pfx obraceTl (c :: r) = false from pfx_braces c r (['~']) h,
        ih n (hasBr_tail c r h)]
      rfl

theorem evalGo_noTag (t : Chars) : ∀ fuel : Nat,
    hasBr t = false → evalGo fuel t = (t, []) := by
  induction t with
  | nil => intro fuel _; cases fuel <;> rfl
  | cons c r ih =>
    intro fuel h
    cases fuel with
    | zero => rfl
    | succ n =>
      rw [evalGo,
        show pfx obrace2 (c :: r) = false from pfx_braces c r ([]) h,
        ih n (hasBr_tail c r h)]
      rfl

/-- Head-is-a-brace test (device for `hasBr` reasoning). -/
def braceHead : Chars → Bool
  | [] => false
  | c :: _ => '\x7b' == c

theorem hasBr_cons_iff (c : Char) (s : Chars) :
    hasBr (c :: s) = ((('\x7b' == c) && braceHead s) || hasBr s) := by
  cases s with
  | nil => simp [hasBr, braceHead]
  | cons b r => rfl

theorem braceHead_escape (t : Chars) : braceHead (escape t) = braceHead t := by
  cases t with
  | nil => rfl
  | cons c r =>
    rw [escape_cons]
    by_cases h1 : c = '\\'
    · subst h1; rfl
    · have hb : (c == '\\') = false := beq_eq_false_iff_ne.mpr h1
      by_cases h2 : c = '\''
      · subst h2; rfl
      · have hq : (c == '\'') = false := beq_eq_false_iff_ne.mpr h2
        rw [show escSeg c = [c] from by simp [escSeg, hb, hq]]
        rfl

theorem hasBr_escape (t : Chars) (h : hasBr t = false) : hasBr (escape t) = false := by
  induction t with
  | nil => rfl
  | cons c r ih =>
    rw [hasBr_cons_iff] at h
    have h1 := (Bool.or_eq_false_iff.mp h).1
    have h2 := ih (Bool.or_eq_false_iff.mp h).2
    rw [escape_cons]
    by_cases hc1 : c = '\\'
    · subst hc1
      rw [show escSeg '\\' = ['\\', '\\'] from rfl]
      show hasBr ('\\' :: '\\' :: escape r) = false
      rw [hasBr_cons_iff, hasBr_cons_iff]
      simp [h2]
    · have hb : (c == '\\') = false := beq_eq_false_iff_ne.mpr hc1
      by_cases hc2 : c = '\''
      · subst hc2
        rw [show escSeg '\'' = ['\\', '\''] from rfl]
        show hasBr ('\\' :: '\'' :: escape r) = false
        rw [hasBr_cons_iff, hasBr_cons_iff]
        simp [h2]
      · have hq : (c == '\'') = false := beq_eq_false_iff_ne.mpr hc2
        rw [show escSeg c = [c] from by simp [escSeg, hb, hq]]
        show hasBr (c :: escape r) = false
        rw [hasBr_cons_iff, braceHead_escape, h2]
        simp only [Bool.or_false]
        exact h1

theorem compileParts_noTag (t : Chars) (h0 : hasBr t = false) (h1 : hasBr (reduce t) = false) :
    compileParts t = (escape (reduce t), []) := by
  have h2 : hasBr (escape (reduce t)) = false := hasBr_escape _ h1
  unfold compileParts
  rw [block_noTag t h0]
  simp only [interpGo_noTag _ _ h2, condGo_noTag _ _ h2, iterGo_noTag _ _ h2,
    evalGo_noTag _ _ h2, List.append_nil, List.nil_append]

/-- The generated body for a tag-free template. -/
def litSource (x : Chars) : Chars :=
  (("let out='").data) ++ (escape x ++ (("';return out;").data))

theorem genSource_noTag (t : Chars) (h0 : hasBr t = false) (h1 : hasBr (reduce t) = false) :
    genSource t = litSource (reduce t) := by
  unfold genSource litSource
  rw [compileParts_noTag t h0 h1]
  show declare [] ++ (("let out='").data) ++ escape (reduce t) ++ (("';return out;").data) = _
  rw [show declare [] = [] from rfl]
  simp [List.append_assoc]

def outN : Chars := ("out").data

/-- The text after the literal's closing quote in the generated body. -/
def remRet : Chars := (";return out;").data

/-- The program that `litSource x` parses to. -/
def litProg (x : Chars) : List Stmt :=
  [Stmt.letDecl [(outN, Expr.lit (Value.str x))], Stmt.ret (Expr.ident outN)]

theorem pStrLit_quote (r : Chars) : pStrLit ('\'' :: r) = some ([], r) := by
  cases r <;> rfl

theorem escape_eq_nil (t : Chars) (h : escape t = []) : t = [] := by
  cases t with
  | nil => rfl
  | cons c r =>
    rw [escape_cons] at h
    exfalso
    by_cases h1 : c = '\\'
    · subst h1; simp [escSeg] at h
    · by_cases h2 : c = '\''
      · subst h2; simp [escSeg] at h
      · simp [escSeg, beq_eq_false_iff_ne.mpr h1, beq_eq_false_iff_ne.mpr h2] at h

theorem pStrLit_escape (x : Chars) : ∀ r : Chars,
    pStrLit (escape x ++ ('\'' :: r)) = some (x, r) := by
  induction x with
  | nil =>
    intro r
    show pStrLit ('\'' :: r) = some ([], r)
    exact pStrLit_quote r
  | cons c t ih =>
    intro r
    rw [escape_cons]
    by_cases h1 : c = '\\'
    · subst h1
      show pStrLit ('\\' :: '\\' :: (escape t ++ ('\'' :: r))) = _
      rw [show pStrLit ('\\' :: '\\' :: (escape t ++ ('\'' :: r)))
          = (match pStrLit (escape t ++ ('\'' :: r)) with
             | some (a, b) => some (unescChar '\\' :: a, b)
             | none => none) from rfl, ih r]
      rfl
    · have hb : (c == '\\') = false := beq_eq_false_iff_ne.mpr h1
      by_cases h2 : c = '\''
      · subst h2
        show pStrLit ('\\' :: '\'' :: (escape t ++ ('\'' :: r))) = _
        rw [show pStrLit ('\\' :: '\'' :: (escape t ++ ('\'' :: r)))
            = (match pStrLit (escape t ++ ('\'' :: r)) with
               | some (a, b) => some (unescChar '\'' :: a, b)
               | none => none) from rfl, ih r]
        rfl
      · have hq : (c == '\'') = false := beq_eq_false_iff_ne.mpr h2
        rw [show escSeg c = [c] from by simp [escSeg, hb, hq]]
        show pStrLit (c :: (escape t ++ ('\'' :: r))) = some (c :: t, r)
        cases he : escape t with
        | nil =>
          have ht : t = [] := escape_eq_nil t he
          subst ht
          show pStrLit (c :: '\'' :: r) = some ([c], r)
          rw [pStrLit, hq, hb]
          simp only [Bool.false_eq_true, if_false]
          rw [pStrLit_quote r]
        | cons e1 er =>
          show pStrLit (c :: e1 :: (er ++ ('\'' :: r))) = some (c :: t, r)
          rw [pStrLit, hq, hb]
          simp only [Bool.false_eq_true, if_false]
          rw [show (e1 :: (er ++ ('\'' :: r)) : Chars) = escape t ++ ('\'' :: r) from by
            rw [he]; rfl]
          rw [ih r]

/-- The tail standing after the opening quote of the generated literal. -/
def quoteTail (x : Chars) : Chars := escape x ++ ('\'' :: remRet)

theorem pPrimary_lit (n : Nat) (x : Chars) :
    pPrimary (n+1) ('\'' :: quoteTail x) = some (Expr.lit (Value.str x), remRet) := by
  show (match pStrLit (escape x ++ ('\'' :: remRet)) with
        | some (a, b) => some (Expr.lit (Value.str a), b)
        | none => none) = _
  rw [pStrLit_escape x remRet]

theorem pPost_lit (n : Nat) (x : Chars) :
    pPost (n+2) ('\'' :: quoteTail x) = some (Expr.lit (Value.str x), remRet) := by
  show (match pPrimary (n+1) ('\'' :: quoteTail x) with
        | some (e, r) => pPostLoop (n+1) e r
        | none => none) = _
  rw [pPrimary_lit n x]
  rfl

theorem pMul_lit (n : Nat) (x : Chars) :
    pMul (n+3) ('\'' :: quoteTail x) = some (Expr.lit (Value.str x), remRet) := by
  show (match pPost (n+2) ('\'' :: quoteTail x) with
        | some (e, r) => pMulLoop (n+2) e r
        | none => none) = _
  rw [pPost_lit n x]
  rfl

theorem pAdd_lit (n : Nat) (x : Chars) :
    pAdd (n+4) ('\'' :: quoteTail x) = some (Expr.lit (Value.str x), remRet) := by
  show (match pMul (n+3) ('\'' :: quoteTail x) with
        | some (e, r) => pAddLoop (n+3) e r
        | none => none) = _
  rw [pMul_lit n x]
  rfl

theorem pEq_lit (n : Nat) (x : Chars) :
    pEq (n+5) ('\'' :: quoteTail x) = some (Expr.lit (Value.str x), remRet) := by
  show (match pAdd (n+4) ('\'' :: quoteTail x) with
        | some (e, r) => pEqLoop (n+4) e r
        | none => none) = _
  rw [pAdd_lit n x]
  rfl

theorem pAssign_lit (n : Nat) (x : Chars) :
    pAssign (n+6) ('\'' :: quoteTail x) = some (Expr.lit (Value.str x), remRet) := by
  show pEq (n+5) ('\'' :: quoteTail x) = _
  exact pEq_lit n x

theorem pBinds_lit (n : Nat) (x : Chars) :
    pBinds (n+7) ('o' :: 'u' :: 't' :: '=' :: '\'' :: quoteTail x)
      = some ([(outN, Expr.lit (Value.str x))], remRet) := by
  show (match pAssign (n+6) ('\'' :: quoteTail x) with
        | some (e, r3) =>
          (match skipWs r3 with
           | ',' :: r4 =>
             (match pBinds (n+6) r4 with
              | some (bs, r5) => some ((outN, e) :: bs, r5)
              | none => none)
           | _ => some ([(outN, e)], r3))
        | none => none) = _
  rw [pAssign_lit n x]
  rfl

theorem pStmt_lit (n : Nat) (x : Chars) :
    pStmt (n+8) (litSource x)
      = some (Stmt.letDecl [(outN, Expr.lit (Value.str x))], (("return out;").data)) := by
  show (match pBinds (n+7) ('o' :: 'u' :: 't' :: '=' :: '\'' :: quoteTail x) with
        | some (bs, r2) =>
          (match skipWs r2 with
           | ';' :: r3 => some (Stmt.letDecl bs, r3)
           | _ => none)
        | none => none) = _
  rw [pBinds_lit n x]
  rfl

theorem pStmts_lit (n : Nat) (x : Chars) :
    pStmts (n+9) (litSource x) = some (litProg x, []) := by
  show (match pStmt (n+8) (litSource x) with
        | some (st, r) =>
          (match pStmts (n+8) r with
           | some (sts, r2) => some (st :: sts, r2)
           | none => none)
        | none => none) = _
  rw [pStmt_lit n x]
  rfl

theorem instantiate_litSource (x : Chars) : instantiate (litSource x) = some (litProg x) := by
  unfold instantiate
  rw [show (litSource x).length + 100 = ((litSource x).length + 91) + 9 from by omega]
  rw [pStmts_lit ((litSource x).length + 91) x]
  rfl

theorem execS_litProg (m : Nat) (x : Chars) (dv : Value) :
    execS (m + 10) [[((("data").data), dv)]] (litProg x)
      = some ([((outN, Value.str x)) :: [((("data").data), dv)]], some (Value.str x)) := rfl

/-- C3 amended: for every template whose raw text and normalized text are both free of
the tag opener `{{`, rendering returns exactly the normalized text, for any data
record: the escaping done at compile time is fully undone by string-literal
evaluation. -/
theorem render_no_tag_normalize (t : Chars) (d : Value)
    (h0 : hasBr t = false) (h1 : hasBr (reduce t) = false) :
    render [] t d = some (reduce t) := by
  unfold render
  rw [genSource_noTag t h0 h1, instantiate_litSource (reduce t)]
  show (match execS (((litSource (reduce t)).length + 4) * (valW (mergeData [] d) + 4) + 100)
      [[((("data").data), mergeData [] d)]] (litProg (reduce t)) with
    | some (_, some rv) => some (valToStr rv)
    | some (_, none) => none
    | none => none) = some (reduce t)
  rw [show ((litSource (reduce t)).length + 4) * (valW (mergeData [] d) + 4) + 100
      = (((litSource (reduce t)).length + 4) * (valW (mergeData [] d) + 4) + 90) + 10 from by
    omega]
  rw [execS_litProg (((litSource (reduce t)).length + 4) * (valW (mergeData [] d) + 4) + 90)
    (reduce t) (mergeData [] d)]
  simp only [valToStr]

/-- C3 witness. -/
theorem render_no_tag_normalize_witness :
    hasBr ((" hello\n  world ").data) = false
    ∧ hasBr (reduce ((" hello\n  world ").data)) = false
    ∧ render [] ((" hello\n  world ").data) (Value.obj []) =
        some (reduce ((" hello\n  world ").data)) := by
  exact ⟨by decide, by decide,
    render_no_tag_normalize ((" hello\n  world ").data) (Value.obj []) (by decide) (by decide)⟩

def tmplSplitBrace : Chars := ("\x7b\n\x7bx\x7d\n\x7d").data

/-- C3 counterexample: the template `{\n{x}\n}` contains no `{{` (hence no tag unit of
any family), yet normalization deletes the line breaks and manufactures the tag
`{{x}}`, so the render is the empty string, not the normalized text `{{x}}`. -/
theorem no_tag_counterexample :
    hasBr tmplSplitBrace = false
    ∧ reduce tmplSplitBrace = ("\x7b\x7bx\x7d\x7d").data
    ∧ render [] tmplSplitBrace (Value.obj []) = some []
    ∧ ¬ (render [] tmplSplitBrace (Value.obj []) = some (reduce tmplSplitBrace)) := by
  refine ⟨by decide, by decide, by decide, by decide⟩

/-! ## C8: the Global Attribute Map -/

theorem runEngine_attrs (ops : List EngineOp) (a : List (Chars × Value))
    (outs : List (Option Chars)) :
    (List.foldl stepEngine (a, outs) ops).1 = (importsOf ops).foldl objAssign a := by
  induction ops generalizing a outs with
  | nil => rfl
  | cons op rest ih =>
    cases op with
    | importAttrs b =>
      simp only [List.foldl_cons, importsOf, List.filterMap_cons]
      exact ih (objAssign a b) outs
    | doRender t d =>
      simp only [List.foldl_cons, importsOf, List.filterMap_cons]
      exact ih a (outs ++ [render a t d])

theorem lookupA_append (fs attrs : List (Chars × Value)) (k : Chars) :
    lookupA (fs ++ attrs) k = ((lookupA fs k).orElse (fun _ => lookupA attrs k)) := by
  induction fs with
  | nil => simp [lookupA, Option.orElse]
  | cons p r ih =>
    by_cases h : p.1 == k
    · simp [lookupA, h, Option.orElse]
    · simp only [List.cons_append]
      rw [show lookupA (p :: (r ++ attrs)) k = lookupA (r ++ attrs) k from by
        cases p; simp_all [lookupA]]
      rw [show lookupA (p :: r) k = lookupA r k from by cases p; simp_all [lookupA]]
      exact ih

/-- C8: every render reads the Global Attribute Map through a copy, merging it under
the per-call data (the data's own fields win on collisions), and after any operation
sequence the map holds exactly what the `import` operations accumulated — renders
never change it. -/
theorem global_attributes_frame :
    (∀ ops : List EngineOp, (runEngine ops).1 = (importsOf ops).foldl objAssign [])
    ∧ (∀ (attrs fs : List (Chars × Value)), mergeData attrs (Value.obj fs) = Value.obj (fs ++ attrs))
    ∧ (∀ (attrs fs : List (Chars × Value)) (k : Chars),
        lookupA (fs ++ attrs) k = ((lookupA fs k).orElse (fun _ => lookupA attrs k))) := by
  exact ⟨fun ops => runEngine_attrs ops [] [], fun _ _ => rfl,
    fun attrs fs k => lookupA_append fs attrs k⟩

/-! ## C6 and C9: block resolution -/

/-- No left brace in the segment, so neither block regex can start inside it. -/
def noLB (s : Chars) : Bool := s.all (fun c => !('\x7b' == c))

/-- Occurrence of a pattern anywhere in the text. -/
def hasPat (p : Chars) : Chars → Bool
  | [] => pfx p []
  | c :: r => pfx p (c :: r) || hasPat p r

theorem wordC_not_ws (c : Char) (h : wordC c = true) : wsC c = false := by
  cases hw : wsC c with
  | false => rfl
  | true =>
    exfalso
    simp only [wsC, Bool.or_eq_true, beq_iff_eq] at hw
    rcases hw with ((((h1 | h1) | h1) | h1) | h1) | h1 <;>
      (try subst h1) <;> exact absurd h (by decide)

theorem wordC_not_lb (c : Char) (h : wordC c = true) : ('\x7b' == c) = false := by
  cases hb : ('\x7b' == c) with
  | false => rfl
  | true =>
    exfalso
    have hc : c = '\x7b' := (beq_iff_eq.mp hb).symm
    subst hc
    exact absurd h (by decide)

theorem wordC_not_rb (c : Char) (h : wordC c = true) : ('\x7d' == c) = false := by
  cases hb : ('\x7d' == c) with
  | false => rfl
  | true =>
    exfalso
    have hc : c = '\x7d' := (beq_iff_eq.mp hb).symm
    subst hc
    exact absurd h (by decide)

theorem noLB_cons (c : Char) (s : Chars) (h : noLB (c :: s) = true) :
    ('\x7b' == c) = false ∧ noLB s = true := by
  simp only [noLB, List.all_cons, Bool.and_eq_true, Bool.not_eq_true'] at h
  exact ⟨h.1, h.2⟩

theorem noLB_of_word (s : Chars) (h : s.all wordC = true) : noLB s = true := by
  induction s with
  | nil => rfl
  | cons c r ih =>
    simp only [List.all_cons, Bool.and_eq_true] at h
    simp only [noLB, List.all_cons, Bool.and_eq_true, Bool.not_eq_true']
    exact ⟨wordC_not_lb c h.1, by
      have := ih h.2
      simpa [noLB] using this⟩

theorem pfx_lb_false (c : Char) (l p : Chars) (h : ('\x7b' == c) = false) :
    pfx ('\x7b' :: p) (c :: l) = false := by
  show (('\x7b' == c) && pfx p l) = false
  rw [h]; rfl

theorem matchDefine_ne (c : Char) (l : Chars) (h : ('\x7b' == c) = false) :
    matchDefine (c :: l) = none := by
  unfold matchDefine
  rw [show pfx obraceLt (c :: l) = false from pfx_lb_false c l _ h]
  rfl

theorem matchHolder_ne (c : Char) (l : Chars) (h : ('\x7b' == c) = false) :
    matchHolder (c :: l) = none := by
  unfold matchHolder
  rw [show pfx obraceGt (c :: l) = false from pfx_lb_false c l _ h]
  rfl

theorem matchDefine_gt (l : Chars) : matchDefine ('\x7b' :: '\x7b' :: '>' :: l) = none := by
  unfold matchDefine
  rw [show pfx obraceLt ('\x7b' :: '\x7b' :: '>' :: l) = false from rfl]
  rfl

theorem matchDefine_ne2 (c2 : Char) (l : Chars) (h : ('\x7b' == c2) = false) :
    matchDefine ('\x7b' :: c2 :: l) = none := by
  unfold matchDefine
  rw [show pfx obraceLt ('\x7b' :: c2 :: l)
      = (('\x7b' == '\x7b') && (('\x7b' == c2) && pfx (['<']) l)) from rfl, h]
  rfl

theorem defineGo_step (n : Nat) (bs : Blocks) (c : Char) (r : Chars) :
    defineGo (n+1) bs (c :: r) =
      (match matchDefine (c :: r) with
       | some (nm, body, rest) => defineGo n (setB bs nm body) rest
       | none => ((c :: (defineGo n bs r).1), (defineGo n bs r).2)) := rfl

theorem holderGo_step (n : Nat) (bs : Blocks) (c : Char) (r : Chars) :
    holderGo (n+1) bs (c :: r) =
      (match matchHolder (c :: r) with
       | some (nm, rest) => blockSub bs nm ++ holderGo n bs rest
       | none => c :: holderGo n bs r) := rfl

theorem defineGo_noPat (s : Chars) : ∀ (fuel : Nat) (bs : Blocks),
    hasPat obraceLt s = false → defineGo fuel bs s = (s, bs) := by
  induction s with
  | nil => intro fuel bs _; cases fuel <;> rfl
  | cons c r ih =>
    intro fuel bs h
    rw [hasPat] at h
    have h1 := (Bool.or_eq_false_iff.mp h).1
    have h2 := (Bool.or_eq_false_iff.mp h).2
    cases fuel with
    | zero => rfl
    | succ n =>
      rw [defineGo_step, show matchDefine (c :: r) = none from by
        unfold matchDefine; rw [h1]; rfl, ih n bs h2]

theorem holderGo_noPat (s : Chars) : ∀ (fuel : Nat) (bs : Blocks),
    hasPat obraceGt s = false → holderGo fuel bs s = s := by
  induction s with
  | nil => intro fuel bs _; cases fuel <;> rfl
  | cons c r ih =>
    intro fuel bs h
    rw [hasPat] at h
    have h1 := (Bool.or_eq_false_iff.mp h).1
    have h2 := (Bool.or_eq_false_iff.mp h).2
    cases fuel with
    | zero => rfl
    | succ n =>
      rw [holderGo_step, show matchHolder (c :: r) = none from by
        unfold matchHolder; rw [h1]; rfl, ih n bs h2]

theorem hasPat_lb_append (seg X p : Chars) (h : noLB seg = true) :
    hasPat ('\x7b' :: p) (seg ++ X) = hasPat ('\x7b' :: p) X := by
  induction seg with
  | nil => rfl
  | cons c s2 ih =>
    obtain ⟨hc, h2⟩ := noLB_cons c s2 h
    rw [show ((c :: s2) ++ X : Chars) = c :: (s2 ++ X) from rfl, hasPat,
      pfx_lb_false c _ p hc, ih h2]
    rfl

theorem hasPat_lb_noLB (s p : Chars) (h : noLB s = true) :
    hasPat ('\x7b' :: p) s = false := by
  induction s with
  | nil => rfl
  | cons c s2 ih =>
    obtain ⟨hc, h2⟩ := noLB_cons c s2 h
    rw [hasPat, pfx_lb_false c _ p hc, ih h2]
    rfl

theorem defineGo_walk (seg : Chars) : ∀ (fuel : Nat) (bs : Blocks) (rest : Chars),
    noLB seg = true →
    defineGo (seg.length + fuel) bs (seg ++ rest)
      = (seg ++ (defineGo fuel bs rest).1, (defineGo fuel bs rest).2) := by
  induction seg with
  | nil =>
    intro fuel bs rest _
    rw [show (([] : Chars)).length + fuel = fuel from by simp]
    rfl
  | cons c s2 ih =>
    intro fuel bs rest h
    obtain ⟨hc, h2⟩ := noLB_cons c s2 h
    rw [show ((c :: s2 : Chars)).length + fuel = (s2.length + fuel) + 1 from by
      simp only [List.length_cons]; omega]
    rw [show ((c :: s2) ++ rest : Chars) = c :: (s2 ++ rest) from rfl]
    rw [defineGo_step, matchDefine_ne c _ hc, ih fuel bs rest h2]
    rfl

theorem holderGo_walk (seg : Chars) : ∀ (fuel : Nat) (bs : Blocks) (rest : Chars),
    noLB seg = true →
    holderGo (seg.length + fuel) bs (seg ++ rest)
      = seg ++ holderGo fuel bs rest := by
  induction seg with
  | nil =>
    intro fuel bs rest _
    rw [show (([] : Chars)).length + fuel = fuel from by simp]
    rfl
  | cons c s2 ih =>
    intro fuel bs rest h
    obtain ⟨hc, h2⟩ := noLB_cons c s2 h
    rw [show ((c :: s2 : Chars)).length + fuel = (s2.length + fuel) + 1 from by
      simp only [List.length_cons]; omega]
    rw [show ((c :: s2) ++ rest : Chars) = c :: (s2 ++ rest) from rfl]
    rw [holderGo_step, matchHolder_ne c _ hc, ih fuel bs rest h2]
    rfl

/-- A block-holder tag `{{> name }}` followed by `rest`. -/
def holdTag (name rest : Chars) : Chars :=
  (("\x7b\x7b> ").data) ++ (name ++ (((" \x7d\x7d").data) ++ rest))

/-- A block definition `{{< name }}body{{< }}` followed by `rest`. -/
def defTag (name body rest : Chars) : Chars :=
  (("\x7b\x7b< ").data) ++ (name ++ (((" \x7d\x7d").data)
    ++ (body ++ ((("\x7b\x7b< \x7d\x7d").data) ++ rest))))

theorem holdTag_cons (name rest : Chars) :
    holdTag name rest = '\x7b' :: '\x7b' :: '>' :: ' ' ::
      (name ++ (' ' :: '\x7d' :: '\x7d' :: rest)) := rfl

theorem defTag_cons (name body rest : Chars) :
    defTag name body rest = '\x7b' :: '\x7b' :: '<' :: ' ' ::
      (name ++ (' ' :: '\x7d' :: '\x7d' ::
        (body ++ ('\x7b' :: '\x7b' :: '<' :: ' ' :: '\x7d' :: '\x7d' :: rest)))) := rfl

theorem holdTag_length (name rest : Chars) :
    (holdTag name rest).length = name.length + rest.length + 7 := by
  rw [holdTag_cons]
  simp only [List.length_cons, List.length_append]
  omega

theorem defTag_length (name body rest : Chars) :
    (defTag name body rest).length = name.length + body.length + rest.length + 13 := by
  rw [defTag_cons]
  simp only [List.length_cons, List.length_append]
  omega

theorem wsBB_word (c : Char) (l : Chars) (h : wordC c = true) : wsBB (c :: l) = none := by
  show (if pfx bb2 ((c :: l).dropWhile wsC) = true
        then some (List.drop 2 ((c :: l).dropWhile wsC)) else none) = none
  rw [show List.dropWhile wsC (c :: l) = c :: l from by
    simp [List.dropWhile_cons, wordC_not_ws c h]]
  rw [show pfx bb2 (c :: l) = false from by
    show (('\x7d' == c) && pfx (['\x7d']) l) = false
    rw [wordC_not_rb c h]; rfl]
  rfl

theorem takeName_word (name : Chars) : ∀ (fuel : Nat) (X : Chars),
    name.all wordC = true → name ≠ [] → name.length < fuel →
    takeName fuel (name ++ (' ' :: '\x7d' :: '\x7d' :: X)) = some (name, X) := by
  induction name with
  | nil => intro fuel X _ hne _; exact absurd rfl hne
  | cons n0 nt ih =>
    intro fuel X hall _ hlt
    have h0 : wordC n0 = true := by
      simp only [List.all_cons, Bool.and_eq_true] at hall; exact hall.1
    have ht : nt.all wordC = true := by
      simp only [List.all_cons, Bool.and_eq_true] at hall; exact hall.2
    cases fuel with
    | zero => omega
    | succ f =>
      rw [show ((n0 :: nt) ++ (' ' :: '\x7d' :: '\x7d' :: X) : Chars)
          = n0 :: (nt ++ (' ' :: '\x7d' :: '\x7d' :: X)) from rfl]
      rw [takeName, wordC_not_ws n0 h0]
      simp only [Bool.false_eq_true, if_false]
      cases nt with
      | nil =>
        rw [show wsBB (([] : Chars) ++ (' ' :: '\x7d' :: '\x7d' :: X)) = some X from rfl]
      | cons n1 t2 =>
        have h1 : wordC n1 = true := by
          simp only [List.all_cons, Bool.and_eq_true] at ht; exact ht.1
        rw [show ((n1 :: t2) ++ (' ' :: '\x7d' :: '\x7d' :: X) : Chars)
            = n1 :: (t2 ++ (' ' :: '\x7d' :: '\x7d' :: X)) from rfl]
        rw [wsBB_word n1 _ h1]
        rw [show (n1 :: (t2 ++ (' ' :: '\x7d' :: '\x7d' :: X)) : Chars)
            = (n1 :: t2) ++ (' ' :: '\x7d' :: '\x7d' :: X) from rfl]
        rw [ih f X ht (by simp) (by simp only [List.length_cons] at hlt ⊢; omega)]

theorem takeBody_noLB (body : Chars) : ∀ (fuel : Nat) (X : Chars),
    noLB body = true → body.length < fuel →
    takeBody fuel (body ++ ('\x7b' :: '\x7b' :: '<' :: ' ' :: '\x7d' :: '\x7d' :: X))
      = some (body, X) := by
  induction body with
  | nil =>
    intro fuel X _ hlt
    cases fuel with
    | zero => omega
    | succ f => rfl
  | cons c b2 ih =>
    intro fuel X hall hlt
    obtain ⟨hc, h2⟩ := noLB_cons c b2 hall
    cases fuel with
    | zero => omega
    | succ f =>
      rw [show ((c :: b2) ++ ('\x7b' :: '\x7b' :: '<' :: ' ' :: '\x7d' :: '\x7d' :: X) : Chars)
          = c :: (b2 ++ ('\x7b' :: '\x7b' :: '<' :: ' ' :: '\x7d' :: '\x7d' :: X)) from rfl]
      rw [takeBody]
      rw [show closeDef (c :: (b2 ++ ('\x7b' :: '\x7b' :: '<' :: ' ' :: '\x7d' :: '\x7d' :: X)))
          = none from by
        unfold closeDef
        rw [show pfx obraceLt (c :: (b2 ++ ('\x7b' :: '\x7b' :: '<' :: ' ' :: '\x7d' :: '\x7d' :: X)))
            = false from pfx_lb_false c _ _ hc]
        rfl]
      rw [ih f X h2 (by simp only [List.length_cons] at hlt ⊢; omega)]

theorem matchHolder_tag (name rest : Chars)
    (hn : name.all wordC = true) (hne : name ≠ []) :
    matchHolder (holdTag name rest) = some (name, rest) := by
  cases name with
  | nil => exact absurd rfl hne
  | cons n0 nt =>
    have h0 : wordC n0 = true := by
      simp only [List.all_cons, Bool.and_eq_true] at hn; exact hn.1
    unfold matchHolder
    rw [show pfx obraceGt (holdTag (n0 :: nt) rest) = true from rfl]
    simp only [if_true]
    rw [show (List.drop 3 (holdTag (n0 :: nt) rest)).dropWhile wsC
        = (n0 :: nt) ++ (' ' :: '\x7d' :: '\x7d' :: rest) from by
      show List.dropWhile wsC (' ' :: ((n0 :: nt) ++ (' ' :: '\x7d' :: '\x7d' :: rest))) = _
      rw [show List.dropWhile wsC (' ' :: ((n0 :: nt) ++ (' ' :: '\x7d' :: '\x7d' :: rest)))
          = List.dropWhile wsC ((n0 :: nt) ++ (' ' :: '\x7d' :: '\x7d' :: rest)) from rfl]
      simp [List.dropWhile_cons, wordC_not_ws n0 h0]]
    rw [takeName_word (n0 :: nt) _ rest hn hne (by
      simp only [List.length_append, List.length_cons]; omega)]

theorem matchDefine_tag (name body rest : Chars)
    (hn : name.all wordC = true) (hne : name ≠ []) (hb : noLB body = true) :
    matchDefine (defTag name body rest) = some (name, body, rest) := by
  cases name with
  | nil => exact absurd rfl hne
  | cons n0 nt =>
    have h0 : wordC n0 = true := by
      simp only [List.all_cons, Bool.and_eq_true] at hn; exact hn.1
    unfold matchDefine
    rw [show pfx obraceLt (defTag (n0 :: nt) body rest) = true from rfl]
    simp only [if_true]
    rw [show (List.drop 3 (defTag (n0 :: nt) body rest)).dropWhile wsC
        = (n0 :: nt) ++ (' ' :: '\x7d' :: '\x7d'
            :: (body ++ ('\x7b' :: '\x7b' :: '<' :: ' ' :: '\x7d' :: '\x7d' :: rest))) from by
      show List.dropWhile wsC (' ' :: ((n0 :: nt) ++ (' ' :: '\x7d' :: '\x7d'
            :: (body ++ ('\x7b' :: '\x7b' :: '<' :: ' ' :: '\x7d' :: '\x7d' :: rest))))) = _
      rw [show List.dropWhile wsC (' ' :: ((n0 :: nt) ++ (' ' :: '\x7d' :: '\x7d'
            :: (body ++ ('\x7b' :: '\x7b' :: '<' :: ' ' :: '\x7d' :: '\x7d' :: rest)))))
          = List.dropWhile wsC ((n0 :: nt) ++ (' ' :: '\x7d' :: '\x7d'
            :: (body ++ ('\x7b' :: '\x7b' :: '<' :: ' ' :: '\x7d' :: '\x7d' :: rest)))) from rfl]
      simp [List.dropWhile_cons, wordC_not_ws n0 h0]]
    rw [takeName_word (n0 :: nt) _ _ hn hne (by
      simp only [List.length_append, List.length_cons]; omega)]
    show (match takeBody
            ((body ++ ('\x7b' :: '\x7b' :: '<' :: ' ' :: '\x7d' :: '\x7d' :: rest)).length + 1)
            (body ++ ('\x7b' :: '\x7b' :: '<' :: ' ' :: '\x7d' :: '\x7d' :: rest)) with
          | some (b, r) => some (n0 :: nt, b, r)
          | none => none) = some (n0 :: nt, body, rest)
    rw [takeBody_noLB body _ rest hb (by
      simp only [List.length_append, List.length_cons]; omega)]

theorem defineGo_skip (n : Nat) (bs : Blocks) (c : Char) (r : Chars)
    (h : matchDefine (c :: r) = none) :
    defineGo (n+1) bs (c :: r) = (c :: (defineGo n bs r).1, (defineGo n bs r).2) := by
  rw [defineGo_step, h]

theorem hasLt_holdTag (name rest : Chars) (hn : name.all wordC = true)
    (hr : hasPat obraceLt rest = false) : hasPat obraceLt (holdTag name rest) = false := by
  rw [holdTag_cons]
  rw [hasPat, hasPat, hasPat, hasPat,
    show pfx obraceLt ('\x7b' :: '\x7b' :: '>' :: ' '
      :: (name ++ (' ' :: '\x7d' :: '\x7d' :: rest))) = false from rfl,
    show pfx obraceLt ('\x7b' :: '>' :: ' '
      :: (name ++ (' ' :: '\x7d' :: '\x7d' :: rest))) = false from rfl,
    show pfx obraceLt ('>' :: ' '
      :: (name ++ (' ' :: '\x7d' :: '\x7d' :: rest))) = false from rfl,
    show pfx obraceLt (' '
      :: (name ++ (' ' :: '\x7d' :: '\x7d' :: rest))) = false from rfl]
  simp only [Bool.false_or]
  rw [show obraceLt = '\x7b' :: ('\x7b' :: '<' :: []) from rfl]
  rw [hasPat_lb_append name _ _ (noLB_of_word name hn)]
  rw [hasPat, hasPat, hasPat,
    show pfx ('\x7b' :: ('\x7b' :: '<' :: [])) (' ' :: '\x7d' :: '\x7d' :: rest)
      = false from rfl,
    show pfx ('\x7b' :: ('\x7b' :: '<' :: [])) ('\x7d' :: '\x7d' :: rest) = false from rfl,
    show pfx ('\x7b' :: ('\x7b' :: '<' :: [])) ('\x7d' :: rest) = false from rfl]
  simp only [Bool.false_or]
  exact hr

/-- Pass 1 walks over a block-holder tag without matching it, because the define
regex requires `{{<` where the holder has `{{>`. -/
theorem defineGo_holdTag (name : Chars) (hn : name.all wordC = true)
    (fuel : Nat) (bs : Blocks) (X : Chars) :
    defineGo ((name.length + 7) + fuel) bs (holdTag name X)
      = (holdTag name (defineGo fuel bs X).1, (defineGo fuel bs X).2) := by
  rw [holdTag_cons]
  rw [show (name.length + 7) + fuel = ((name.length + 6) + fuel) + 1 from by omega,
    defineGo_skip _ _ _ _ (matchDefine_gt _)]
  rw [show (name.length + 6) + fuel = ((name.length + 5) + fuel) + 1 from by omega,
    defineGo_skip _ _ _ _ (matchDefine_ne2 '>' _ rfl)]
  rw [show (name.length + 5) + fuel = ((name.length + 4) + fuel) + 1 from by omega,
    defineGo_skip _ _ _ _ (matchDefine_ne '>' _ rfl)]
  rw [show (name.length + 4) + fuel = ((name.length + 3) + fuel) + 1 from by omega,
    defineGo_skip _ _ _ _ (matchDefine_ne ' ' _ rfl)]
  rw [show (name.length + 3) + fuel = name.length + (fuel + 3) from by omega,
    defineGo_walk name _ bs _ (noLB_of_word name hn)]
  rw [show fuel + 3 = (fuel + 2) + 1 from rfl,
    defineGo_skip _ _ _ _ (matchDefine_ne ' ' _ rfl)]
  rw [show fuel + 2 = (fuel + 1) + 1 from rfl,
    defineGo_skip _ _ _ _ (matchDefine_ne '\x7d' _ rfl)]
  rw [show fuel + 1 = fuel + 1 from rfl,
    defineGo_skip _ _ _ _ (matchDefine_ne '\x7d' _ rfl)]
  rfl

/-- Pass 1 consumes a block definition whose name is not `__proto__`: it records the
body as an own property and deletes the definition's text. -/
theorem defineGo_defTag (name body rest : Chars)
    (hn : name.all wordC = true) (hne : name ≠ []) (hbody : noLB body = true)
    (hrest : hasPat obraceLt rest = false) (hp : (name == protoAccessor) = false)
    (bs : Blocks) :
    defineGo ((defTag name body rest).length + 1) bs (defTag name body rest)
      = (rest, (name, body) :: bs) := by
  rw [defTag_cons, defineGo_step,
    show matchDefine ('\x7b' :: '\x7b' :: '<' :: ' ' ::
        (name ++ (' ' :: '\x7d' :: '\x7d' ::
          (body ++ ('\x7b' :: '\x7b' :: '<' :: ' ' :: '\x7d' :: '\x7d' :: rest)))))
      = some (name, body, rest) from matchDefine_tag name body rest hn hne hbody]
  show defineGo ((defTag name body rest).length) (setB bs name body) rest
    = (rest, (name, body) :: bs)
  rw [show setB bs name body = (name, body) :: bs from by
    unfold setB; rw [hp]; rfl]
  exact defineGo_noPat rest _ _ hrest

/-- Pass 2 substitutes a holder tag with `blocks[name] || ""` as the replacer
returns it. -/
theorem holderGo_holdTag (name rest : Chars) (bs : Blocks)
    (hn : name.all wordC = true) (hne : name ≠ [])
    (hrest : hasPat obraceGt rest = false) :
    holderGo ((holdTag name rest).length + 1) bs (holdTag name rest)
      = blockSub bs name ++ rest := by
  rw [holdTag_cons, holderGo_step,
    show matchHolder ('\x7b' :: '\x7b' :: '>' :: ' ' ::
        (name ++ (' ' :: '\x7d' :: '\x7d' :: rest)))
      = some (name, rest) from matchHolder_tag name rest hn hne]
  show blockSub bs name ++ holderGo ((holdTag name rest).length) bs rest
    = blockSub bs name ++ rest
  rw [holderGo_noPat rest _ _ hrest]

theorem block_define_first (A B C name body : Chars)
    (hA : noLB A = true) (hB : noLB B = true) (hC : noLB C = true)
    (hn : name.all wordC = true) (hne : name ≠ []) (hbody : noLB body = true)
    (hp : (name == protoAccessor) = false) :
    block (A ++ defTag name body (B ++ holdTag name C)) = A ++ (B ++ (body ++ C)) := by
  have hrest : hasPat obraceLt (B ++ holdTag name C) = false := by
    have h1 : hasPat obraceLt (B ++ holdTag name C) = hasPat obraceLt (holdTag name C) :=
      hasPat_lb_append B (holdTag name C) ('\x7b' :: '<' :: []) hB
    rw [h1]
    exact hasLt_holdTag name C hn
      (show hasPat obraceLt C = false from hasPat_lb_noLB C ('\x7b' :: '<' :: []) hC)
  have p1 : defineGo ((A ++ defTag name body (B ++ holdTag name C)).length + 1) []
      (A ++ defTag name body (B ++ holdTag name C))
      = (A ++ (B ++ holdTag name C), [(name, body)]) := by
    rw [show (A ++ defTag name body (B ++ holdTag name C)).length + 1
        = A.length + ((defTag name body (B ++ holdTag name C)).length + 1) from by
      simp only [List.length_append]; omega]
    rw [defineGo_walk A _ [] _ hA,
      defineGo_defTag name body (B ++ holdTag name C) hn hne hbody hrest hp []]
  unfold block
  rw [p1]
  show holderGo ((A ++ (B ++ holdTag name C)).length + 1) [(name, body)]
      (A ++ (B ++ holdTag name C)) = A ++ (B ++ (body ++ C))
  rw [show (A ++ (B ++ holdTag name C)).length + 1
      = A.length + (B.length + ((holdTag name C).length + 1)) from by
    simp only [List.length_append]; omega]
  rw [holderGo_walk A _ _ _ hA, holderGo_walk B _ _ _ hB,
    holderGo_holdTag name C [(name, body)] hn hne
      (show hasPat obraceGt C = false from hasPat_lb_noLB C ('\x7b' :: '>' :: []) hC)]
  rw [show blockSub [(name, body)] name = body from by
    unfold blockSub
    rw [show lookupB [(name, body)] name = some body from by
      show (if name == name then some body else lookupB [] name) = some body
      rw [beq_self_eq_true]
      rfl]]

theorem block_holder_first (A B C name body : Chars)
    (hA : noLB A = true) (hB : noLB B = true) (hC : noLB C = true)
    (hn : name.all wordC = true) (hne : name ≠ []) (hbody : noLB body = true)
    (hp : (name == protoAccessor) = false) :
    block (A ++ holdTag name (B ++ defTag name body C)) = A ++ (body ++ (B ++ C)) := by
  have hC2 : hasPat obraceLt C = false := hasPat_lb_noLB C ('\x7b' :: '<' :: []) hC
  have p1 : defineGo ((A ++ holdTag name (B ++ defTag name body C)).length + 1) []
      (A ++ holdTag name (B ++ defTag name body C))
      = (A ++ holdTag name (B ++ C), [(name, body)]) := by
    rw [show (A ++ holdTag name (B ++ defTag name body C)).length + 1
        = A.length + ((name.length + 7)
            + (B.length + ((defTag name body C).length + 1))) from by
      simp only [List.length_append, holdTag_length]; omega]
    rw [defineGo_walk A _ [] _ hA,
      defineGo_holdTag name hn _ [] _,
      defineGo_walk B _ [] _ hB,
      defineGo_defTag name body C hn hne hbody hC2 hp []]
  unfold block
  rw [p1]
  show holderGo ((A ++ holdTag name (B ++ C)).length + 1) [(name, body)]
      (A ++ holdTag name (B ++ C)) = A ++ (body ++ (B ++ C))
  rw [show (A ++ holdTag name (B ++ C)).length + 1
      = A.length + ((holdTag name (B ++ C)).length + 1) from by
    simp only [List.length_append]; omega]
  have hBC : hasPat obraceGt (B ++ C) = false := by
    have h1 : hasPat obraceGt (B ++ C) = hasPat obraceGt C :=
      hasPat_lb_append B C ('\x7b' :: '>' :: []) hB
    rw [h1]
    exact hasPat_lb_noLB C ('\x7b' :: '>' :: []) hC
  rw [holderGo_walk A _ _ _ hA,
    holderGo_holdTag name (B ++ C) [(name, body)] hn hne hBC]
  rw [show blockSub [(name, body)] name = body from by
    unfold blockSub
    rw [show lookupB [(name, body)] name = some body from by
      show (if name == name then some body else lookupB [] name) = some body
      rw [beq_self_eq_true]
      rfl]]

/-- C6 counterexample: for the block name __proto__, order-independent substitution of
the defined body fails.  The plain-object store drops the assignment through the
inherited accessor, and the later read of blocks[__proto__] yields Object.prototype,
which the replacement coerces to the string [object Object]: in both textual orders
the placeholder becomes [object Object], never the body BODY. -/
theorem block_proto_counterexample :
    block (defTag (("__proto__").data) (("BODY").data)
        (holdTag (("__proto__").data) []))
      = ("[object Object]").data
    ∧ block (holdTag (("__proto__").data)
        (defTag (("__proto__").data) (("BODY").data) []))
      = ("[object Object]").data
    ∧ ("[object Object]").data ≠ ("BODY").data := by
  refine ⟨by decide, by decide, by decide⟩

/-- C6 (amended): block resolution is order-independent for every block name other
than __proto__: the placeholder is substituted with the defined body whether it
appears textually after the definition or before it, because all definitions are
collected in a first whole-text pass before any substitution.  For __proto__ the
plain-object store silently drops the definition via the inherited accessor, so the
body is not substituted in either order. -/
theorem block_order_independence (A B C name body : Chars)
    (hA : noLB A = true) (hB : noLB B = true) (hC : noLB C = true)
    (hn : name.all wordC = true) (hne : name ≠ []) (hbody : noLB body = true)
    (hp : (name == protoAccessor) = false) :
    block (A ++ defTag name body (B ++ holdTag name C)) = A ++ (B ++ (body ++ C))
    ∧ block (A ++ holdTag name (B ++ defTag name body C)) = A ++ (body ++ (B ++ C)) :=
  ⟨block_define_first A B C name body hA hB hC hn hne hbody hp,
   block_holder_first A B C name body hA hB hC hn hne hbody hp⟩

/-- C6 witness. -/
theorem block_order_independence_witness :
    block ((("PRE").data) ++ defTag (("x").data) (("BODY").data)
      ((("MID").data) ++ holdTag (("x").data) (("POST").data)))
      = (("PRE").data) ++ ((("MID").data) ++ ((("BODY").data) ++ (("POST").data)))
    ∧ block ((("PRE").data) ++ holdTag (("x").data)
      ((("MID").data) ++ defTag (("x").data) (("BODY").data) (("POST").data)))
      = (("PRE").data) ++ ((("BODY").data) ++ ((("MID").data) ++ (("POST").data))) :=
  block_order_independence (("PRE").data) (("MID").data) (("POST").data)
    (("x").data) (("BODY").data)
    (by decide) (by decide) (by decide) (by decide) (by decide) (by decide) (by decide)

/-- C9 counterexample: a placeholder for the undefined name constructor is not
replaced by the empty string.  blocks[constructor] finds the inherited
Object.prototype.constructor, a truthy function object, and the replacement coerces
it into the output as its host string form. -/
theorem missing_placeholder_counterexample :
    block (holdTag (("constructor").data) [])
      = ("function Object() \x7b [native code] \x7d").data
    ∧ block (holdTag (("constructor").data) []) ≠ [] := by
  refine ⟨by decide, by decide⟩

/-- C9 (amended): a block placeholder whose name has no recorded definition and is
not one of the inherited Object.prototype property names (constructor, toString,
valueOf, hasOwnProperty, isPrototypeOf, propertyIsEnumerable, toLocaleString, the
four __define/__lookup accessors, __proto__) is replaced by the empty string — block
resolution is total, no error is raised — and the surrounding text is kept
unchanged.  For an inherited name, the truthy prototype member is coerced into the
output instead. -/
theorem missing_block_placeholder (A B name : Chars)
    (hA : noLB A = true) (hB : noLB B = true)
    (hn : name.all wordC = true) (hne : name ≠ [])
    (hproto : protoNames.contains name = false) :
    block (A ++ holdTag name B) = A ++ B := by
  have p1 : defineGo ((A ++ holdTag name B).length + 1) [] (A ++ holdTag name B)
      = (A ++ holdTag name B, []) := by
    apply defineGo_noPat
    have h1 : hasPat obraceLt (A ++ holdTag name B) = hasPat obraceLt (holdTag name B) :=
      hasPat_lb_append A (holdTag name B) ('\x7b' :: '<' :: []) hA
    rw [h1]
    exact hasLt_holdTag name B hn (hasPat_lb_noLB B ('\x7b' :: '<' :: []) hB)
  unfold block
  rw [p1]
  show holderGo ((A ++ holdTag name B).length + 1) [] (A ++ holdTag name B) = A ++ B
  rw [show (A ++ holdTag name B).length + 1
      = A.length + ((holdTag name B).length + 1) from by
    simp only [List.length_append]; omega]
  rw [holderGo_walk A _ _ _ hA,
    holderGo_holdTag name B [] hn hne (hasPat_lb_noLB B ('\x7b' :: '>' :: []) hB)]
  rw [show blockSub [] name = [] from by
    unfold blockSub
    show (if protoNames.contains name = true then protoString name else []) = []
    rw [hproto]
    rfl]
  rfl

/-- C9 witness. -/
theorem missing_block_placeholder_witness :
    block ((("A").data) ++ holdTag (("nope").data) (("B").data)) = (("A").data) ++ (("B").data) :=
  missing_block_placeholder (("A").data) (("B").data) (("nope").data)
    (by decide) (by decide) (by decide) (by decide) (by decide)

end Cross
